import Mathlib

/-!
Verification of the dcm-policy-manager repository against its specification.

The development shallowly embeds the hand-written core of the repository:
  * the JSON document model used by the evaluation pipeline
    (Go `map[string]any` values decoded from JSON),
  * the constraint context (internal/service/constraints.go),
  * the Rego package extractor (internal/rego),
  * the OPA decision parser (internal/opa),
  * the label matcher (internal/service),
  * the policy store (internal/store/policy.go),
  * the evaluation service (internal/service/evaluation),
  * the policy service CRUD orchestration.

Go `map[string]any` values are modelled by the mutual inductive family
`J` / `JArr` / `JFields` below.  An object is a list of key/value pairs;
Go maps cannot hold a key twice, so theorems that depend on it carry a
`wfB` (distinct keys) hypothesis.  JSON numbers are modelled as integers:
no claim under verification depends on float formatting or precision.
-/

mutual

/-- A JSON value as decoded by Go into `any` (interface value). -/
inductive J where
  | null
  | bool (b : Bool)
  | num (n : Int)
  | str (s : String)
  | arr (xs : JArr)
  | obj (fs : JFields)

/-- A JSON array (Go `[]any`). -/
inductive JArr where
  | nil
  | cons (hd : J) (tl : JArr)

/-- A JSON object (Go `map[string]any`), as a field list. -/
inductive JFields where
  | nil
  | cons (k : String) (v : J) (tl : JFields)

end

/-- Reads a key from an object; models a Go map read `m[k]` returning
`(value, ok)`. -/
def JFields.lookup : JFields → String → Option J
  | .nil, _ => none
  | .cons k v tl, l => if l = k then some v else tl.lookup l

/-- The keys of an object, in field-list order. -/
def JFields.keys : JFields → List String
  | .nil => []
  | .cons k _ tl => k :: tl.keys

/-- The field list as a plain Lean list. -/
def JFields.toList : JFields → List (String × J)
  | .nil => []
  | .cons k v tl => (k, v) :: tl.toList

/-- No key occurs twice (always true of a Go map, one level). -/
def noDupKeysB : JFields → Bool
  | .nil => true
  | .cons k _ tl => !(tl.keys.contains k) && noDupKeysB tl

mutual

/-- Well-formedness: every object level has pairwise distinct keys.
True of every value produced by decoding JSON into Go maps. -/
def J.wfB : J → Bool
  | .obj fs => noDupKeysB fs && JFields.wfB fs
  | .arr xs => JArr.wfB xs
  | _ => true

def JArr.wfB : JArr → Bool
  | .nil => true
  | .cons hd tl => hd.wfB && JArr.wfB tl

def JFields.wfB : JFields → Bool
  | .nil => true
  | .cons _ v tl => v.wfB && JFields.wfB tl

end

mutual

/-- Structural equality test on JSON values. -/
def J.beq : J → J → Bool
  | .null, .null => true
  | .bool a, .bool b => a == b
  | .num a, .num b => a == b
  | .str a, .str b => a == b
  | .arr a, .arr b => JArr.beq a b
  | .obj a, .obj b => JFields.beq a b
  | _, _ => false

def JArr.beq : JArr → JArr → Bool
  | .nil, .nil => true
  | .cons x xs, .cons y ys => J.beq x y && JArr.beq xs ys
  | _, _ => false

def JFields.beq : JFields → JFields → Bool
  | .nil, .nil => true
  | .cons k v tl, .cons l w tl2 => k == l && J.beq v w && JFields.beq tl tl2
  | _, _ => false

end

/-- Lexicographic comparison of character lists by code point. -/
def charsLe : List Char → List Char → Bool
  | [], _ => true
  | _ :: _, [] => false
  | a :: as2, b :: bs =>
    if a.toNat < b.toNat then true
    else if b.toNat < a.toNat then false
    else charsLe as2 bs

/-- Lexicographic string order by code point, the order in which Go
sorts map keys. -/
def strLe (s t : String) : Bool :=
  charsLe s.data t.data

/-- Inserts a field into a (sorted) field list, keeping keys in
nondecreasing order. -/
def insertField (k : String) (v : J) : JFields → JFields
  | .nil => .cons k v .nil
  | .cons l w tl => if strLe k l then .cons k v (.cons l w tl) else .cons l w (insertField k v tl)

/-- Insertion sort of a field list by key. -/
def sortFields : JFields → JFields
  | .nil => .nil
  | .cons k v tl => insertField k v (sortFields tl)

mutual

/-- Canonical form of a JSON value: every object level sorted by key.
`J.canon a = J.canon b` models equality of the strings produced by Go
`encoding/json.Marshal`, which prints object keys in sorted order and is
injective on the JSON values modelled here (up to key order). -/
def J.canon : J → J
  | .obj fs => .obj (sortFields (JFields.canon fs))
  | .arr xs => .arr (JArr.canon xs)
  | v => v

def JArr.canon : JArr → JArr
  | .nil => .nil
  | .cons hd tl => .cons hd.canon (JArr.canon tl)

def JFields.canon : JFields → JFields
  | .nil => .nil
  | .cons k v tl => .cons k v.canon (JFields.canon tl)

end

/-- Every key of the first object is present in the second. -/
def keysIncl : JFields → JFields → Bool
  | .nil, _ => true
  | .cons k _ tl, b => (b.lookup k).isSome && keysIncl tl b

mutual

/-- Order-independent JSON equality, following the specification words:
two documents are canonically equal when both have the same keys at every
object level with pairwise equal values, regardless of key order. -/
def J.jeqv : J → J → Bool
  | .null, .null => true
  | .bool a, .bool b => a == b
  | .num a, .num b => a == b
  | .str a, .str b => a == b
  | .arr a, .arr b => JArr.jeqv a b
  | .obj a, .obj b => JFields.pointwise a b && keysIncl b a
  | _, _ => false

def JArr.jeqv : JArr → JArr → Bool
  | .nil, .nil => true
  | .cons x xs, .cons y ys => J.jeqv x y && JArr.jeqv xs ys
  | _, _ => false

/-- Every field of the first object matches (order-independently) the
value stored under the same key in the second object. -/
def JFields.pointwise : JFields → JFields → Bool
  | .nil, _ => true
  | .cons k v tl, b =>
    (match b.lookup k with
     | some w => J.jeqv v w
     | none => false) && JFields.pointwise tl b

end

/-! ### Go fmt rendering

`internal/service/constraints.go` compares values with
`fmt.Sprintf("%v", a) == fmt.Sprintf("%v", b)`.  The render below models
the `%v` verb on JSON-decoded values: strings print raw, booleans print
`true`/`false`, a nil interface prints `<nil>`, slices print
space-separated inside brackets, and maps print space-separated `k:v`
entries sorted by key inside `map[...]`. -/

/-- Insertion step for sorting rendered map entries by key. -/
def insertPair (p : String × String) : List (String × String) → List (String × String)
  | [] => [p]
  | q :: rest => if strLe p.1 q.1 then p :: q :: rest else q :: insertPair p rest

/-- Sorts rendered map entries by key (Go fmt prints map keys sorted). -/
def sortPairs : List (String × String) → List (String × String)
  | [] => []
  | p :: rest => insertPair p (sortPairs rest)

mutual

/-- Models `fmt.Sprintf("%v", v)` on a JSON-decoded Go value. -/
def J.render : J → String
  | .null => "<nil>"
  | .bool b => cond b "true" "false"
  | .num n => toString n
  | .str s => s
  | .arr xs => "[" ++ String.intercalate " " (JArr.renderElems xs) ++ "]"
  | .obj fs =>
    "map[" ++
      String.intercalate " "
        ((sortPairs (JFields.renderEntries fs)).map (fun p => p.1 ++ ":" ++ p.2)) ++ "]"

def JArr.renderElems : JArr → List String
  | .nil => []
  | .cons hd tl => hd.render :: JArr.renderElems tl

def JFields.renderEntries : JFields → List (String × String)
  | .nil => []
  | .cons k v tl => (k, v.render) :: JFields.renderEntries tl

end

/-- Renders an optional value: a missing map key reads as a nil
interface, which `%v` prints as `<nil>`. -/
def renderOpt : Option J → String
  | none => "<nil>"
  | some v => v.render

/-- Models `valuesEqual` of internal/service/constraints.go: equality of
the `fmt.Sprintf("%v", _)` renderings. -/
def valuesEqual (a b : Option J) : Bool :=
  renderOpt a == renderOpt b

/-! ### String helpers shared by several components -/

/-- The whitespace class of Go `unicode.IsSpace` restricted to the
code points that can appear in the sources under verification. -/
def isGoSpace (c : Char) : Bool :=
  c = ' ' || c = '\t' || c = '\n' || c = '\x0b' || c = '\x0c' || c = '\r' ||
  c = '\x85' || c = '\xa0'

/-- Models Go `strings.TrimSpace`. -/
def goTrimSpace (s : String) : String :=
  String.mk (((s.data.dropWhile isGoSpace).reverse.dropWhile isGoSpace).reverse)

/-- Splitting on a newline, models `strings.SplitSeq(code, "\n")`. -/
def splitNlAux : List Char → List Char → List String
  | acc, [] => [String.mk acc.reverse]
  | acc, c :: rest =>
    if c = '\n' then String.mk acc.reverse :: splitNlAux [] rest
    else splitNlAux (c :: acc) rest

def splitNl (s : String) : List String :=
  splitNlAux [] s.data

/-- Models Go `strings.HasPrefix` via the character lists. -/
def strStartsWith (s pre : String) : Bool :=
  pre.data.isPrefixOf s.data

/-- Assoc lookup in a Go `map[string]string`. -/
def lookupStr : List (String × String) → String → Option String
  | [], _ => none
  | (k, v) :: rest, l => if l = k then some v else lookupStr rest l

/-! ### Rego package extractor (internal/rego) -/

/-- The two sentinel errors of the package extractor. -/
inductive RegoErr where
  | emptyPackageDeclaration
  | noPackageDeclaration
deriving DecidableEq

/-- Models `strings.CutPrefix(trimmed, "package ")`. -/
def cutPackageKeyword (t : String) : Option String :=
  if ("package ".data).isPrefixOf t.data then some (String.mk (t.data.drop 8)) else none

/-- Cuts a trailing comment: models `strings.Index(pkgName, "#")` plus
the slice `pkgName[:idx]` (identity when no `#` occurs). -/
def beforeHash (s : String) : String :=
  String.mk (s.data.takeWhile (fun c => c ≠ '#'))

/-- The loop body of `ExtractPackageName`, one iteration per line. -/
def extractLoop : List String → Except RegoErr String
  | [] => .error .noPackageDeclaration
  | line :: rest =>
    let trimmed := goTrimSpace line
    if trimmed = "" || strStartsWith trimmed "#" then extractLoop rest
    else if trimmed = "package" then .error .emptyPackageDeclaration
    else
      match cutPackageKeyword trimmed with
      | some pkgName =>
        if pkgName ≠ "" then
          let pkgName2 := goTrimSpace (beforeHash pkgName)
          if pkgName2 = "" then .error .emptyPackageDeclaration else .ok pkgName2
        else extractLoop rest
      | none => extractLoop rest

/-- Models `rego.ExtractPackageName` (unnamed source, rego package). -/
def ExtractPackageName (regoCode : String) : Except RegoErr String :=
  extractLoop (splitNl regoCode)

/-! ### OPA decision parsing (internal/opa) -/

/-- Result of one OPA evaluation (`opa.EvaluationResult`). -/
structure EvaluationResult where
  result : JFields
  defined : Bool

/-- The decision document a policy returns (`opa.PolicyDecision`).
`outputSpec` is `none` when the field is absent or not an object,
matching the nil Go map default. -/
structure PolicyDecision where
  rejected : Bool
  rejectionReason : String
  outputSpec : Option JFields
  selectedProvider : String

/-- Models `opa.ParsePolicyDecision`: each field is read with a type
assertion and silently left at its default when the assertion fails. -/
def ParsePolicyDecision (result : JFields) : PolicyDecision :=
  { rejected :=
      match result.lookup "rejected" with
      | some (.bool b) => b
      | _ => false
    rejectionReason :=
      match result.lookup "rejection_reason" with
      | some (.str s) => s
      | _ => ""
    outputSpec :=
      match result.lookup "output_spec" with
      | some (.obj fs) => some fs
      | _ => none
    selectedProvider :=
      match result.lookup "selected_provider" with
      | some (.str s) => s
      | _ => "" }

/-! ### Label matcher (internal/service) -/

/-- Models `service.MatchesLabelSelector`: AND semantics, empty selector
matches everything. -/
def MatchesLabelSelector (policySelector requestLabels : List (String × String)) : Bool :=
  match policySelector with
  | [] => true
  | _ => policySelector.all (fun kv => lookupStr requestLabels kv.1 == some kv.2)


/-! ### Constraint context (internal/service/constraints.go)

The Go struct holds two maps; a Go map read returns the zero value for a
missing key, so the state is modelled with total functions returning
`false` / `""` by default. -/

/-- `service.ConstraintContext`. -/
structure ConstraintContext where
  immutableFields : String → Bool
  setBy : String → String

/-- `service.NewConstraintContext`. -/
def NewConstraintContext : ConstraintContext :=
  { immutableFields := fun _ => false, setBy := fun _ => "" }

/-- `(*ConstraintContext).MarkImmutable`. -/
def ConstraintContext.MarkImmutable (c : ConstraintContext) (fieldPath policyID : String) :
    ConstraintContext :=
  { immutableFields := fun q => if q = fieldPath then true else c.immutableFields q
    setBy := fun q => if q = fieldPath then policyID else c.setBy q }

/-- `(*ConstraintContext).IsImmutable`. -/
def ConstraintContext.IsImmutable (c : ConstraintContext) (fieldPath : String) : Bool :=
  c.immutableFields fieldPath

/-- `(*ConstraintContext).GetSetBy`. -/
def ConstraintContext.GetSetBy (c : ConstraintContext) (fieldPath : String) : String :=
  c.setBy fieldPath

/-- The field path built at each loop iteration:
`key` when the prefix is empty, otherwise `prefix + "." + key`. -/
def joinPath (pre key : String) : String :=
  if pre = "" then key else pre ++ "." ++ key

mutual

/-- The per-field part of `checkViolationsRecursive` that handles one
`(key, modifiedValue)` pair: the nested-map branch of the loop body. -/
def checkViolV (imm : String → Bool) (fp : String) (ov : Option J) : J → List String
  | .obj m2 =>
    match ov with
    | some (.obj m1) => checkViolF imm fp m1 m2
    | some _ => if imm fp then [fp] else []
    | none => []
  | _ => []

/-- Models `checkViolationsRecursive`: iterates over the fields of the
modified object, collecting violations in order. -/
def checkViolF (imm : String → Bool) (pre : String) (orig : JFields) : JFields → List String
  | .nil => []
  | .cons k v tl =>
    let fp := joinPath pre k
    let ov := orig.lookup k
    (if imm fp && !valuesEqual ov (some v) then [fp] else []) ++
      checkViolV imm fp ov v ++ checkViolF imm pre orig tl

end

/-- Models `(*ConstraintContext).CheckViolations`. -/
def ConstraintContext.CheckViolations (c : ConstraintContext) (original modified : JFields) :
    List String :=
  checkViolF c.immutableFields "" original modified

mutual

/-- The per-field part of `markChangedFieldsRecursive` for one
`(key, modifiedValue)` pair. -/
def markChangedV (c : ConstraintContext) (policyID fp : String) (ov : Option J) :
    J → ConstraintContext
  | .obj m2 =>
    match ov with
    | some (.obj m1) => markChangedF c policyID fp m1 m2
    | _ => c.MarkImmutable fp policyID
  | v =>
    match ov with
    | none => c.MarkImmutable fp policyID
    | some w => if valuesEqual (some w) (some v) then c else c.MarkImmutable fp policyID

/-- Models `markChangedFieldsRecursive`, threading the context through
the field loop. -/
def markChangedF (c : ConstraintContext) (policyID pre : String) (orig : JFields) :
    JFields → ConstraintContext
  | .nil => c
  | .cons k v tl =>
    markChangedF (markChangedV c policyID (joinPath pre k) (orig.lookup k) v) policyID pre orig tl

end

/-- Models `(*ConstraintContext).MarkChangedFields`. -/
def ConstraintContext.MarkChangedFields (c : ConstraintContext) (original modified : JFields)
    (policyID : String) : ConstraintContext :=
  markChangedF c policyID "" original modified

mutual

/-- The set of paths `markChangedV` marks, independent of the context. -/
def markedV (fp : String) (ov : Option J) : J → List String
  | .obj m2 =>
    match ov with
    | some (.obj m1) => markedF fp m1 m2
    | _ => [fp]
  | v =>
    match ov with
    | none => [fp]
    | some w => if valuesEqual (some w) (some v) then [] else [fp]

/-- The set of paths `markChangedF` marks, independent of the context. -/
def markedF (pre : String) (orig : JFields) : JFields → List String
  | .nil => []
  | .cons k v tl => markedV (joinPath pre k) (orig.lookup k) v ++ markedF pre orig tl

end

/-! ### Traces of constraint-context operations (for the implicit
invariant relating `IsImmutable` and `GetSetBy`) -/

/-- One mutation of a constraint context. -/
inductive CtxOp where
  | markOp (path policyID : String)
  | markChangedOp (before after : JFields) (policyID : String)

/-- The policy id an operation attributes its markings to. -/
def CtxOp.policyID : CtxOp → String
  | .markOp _ pid => pid
  | .markChangedOp _ _ pid => pid

/-- Applies one operation. -/
def applyCtxOp (c : ConstraintContext) : CtxOp → ConstraintContext
  | .markOp p pid => c.MarkImmutable p pid
  | .markChangedOp b a pid => c.MarkChangedFields b a pid

/-- Applies a sequence of operations in order. -/
def applyCtxOps (c : ConstraintContext) (ops : List CtxOp) : ConstraintContext :=
  ops.foldl applyCtxOp c

/-- Whether an operation marks the path `p`. -/
def CtxOp.marks (op : CtxOp) (p : String) : Bool :=
  match op with
  | .markOp q _ => p == q
  | .markChangedOp b a _ => (markedF "" b a).contains p

/-- The policy id of the most recent operation that marked `p`, if any. -/
def lastMarker (ops : List CtxOp) (p : String) : Option String :=
  (ops.reverse.find? (fun op => op.marks p)).map CtxOp.policyID

/-! ### Path resolution (used to state properties about violation
paths independently of the traversal) -/

/-- Follows a chain of keys through nested objects; answers the object
at the end of the chain, or `none` when some step is missing or is not
an object. -/
def resolveFields : JFields → List String → Option JFields
  | fs, [] => some fs
  | fs, k :: rest =>
    match fs.lookup k with
    | some (.obj fs2) => resolveFields fs2 rest
    | _ => none

/-- The dotted rendering of a key chain. -/
def dottedPath (ks : List String) : String :=
  String.intercalate "." ks

/-- Whether a value is an object. -/
def J.isObj : J → Bool
  | .obj _ => true
  | _ => false

/-- The paths reported by the violation traversal, characterised by
lookups from the root rather than by the loop: `Reported imm pre b a p`
holds exactly when the traversal rooted at prefix `pre` over `(b, a)`
reports `p`. -/
inductive Reported (imm : String → Bool) : String → JFields → JFields → String → Prop where
  | here (pre : String) (b1 a1 : JFields) (k : String) (v : J) :
      a1.lookup k = some v →
      imm (joinPath pre k) = true →
      (valuesEqual (b1.lookup k) (some v) = false ∨
        (v.isObj = true ∧ ∃ w, b1.lookup k = some w ∧ w.isObj = false)) →
      Reported imm pre b1 a1 (joinPath pre k)
  | nest (pre : String) (b1 a1 : JFields) (k : String) (m1 m2 : JFields) (p : String) :
      a1.lookup k = some (.obj m2) →
      b1.lookup k = some (.obj m1) →
      Reported imm (joinPath pre k) m1 m2 p →
      Reported imm pre b1 a1 p

/-! ### Policy store (internal/store/policy.go, internal/store/model)

The database is modelled as the list of persisted rows.  Timestamps are
abstract `Nat` instants supplied by the caller (`autoCreateTime` /
`autoUpdateTime`). -/

/-- `model.Policy`: one persisted row. -/
structure DbPolicy where
  id : String
  displayName : String
  description : String
  policyType : String
  labelSelector : List (String × String)
  priority : Int
  packageName : String
  enabled : Bool
  createTime : Nat
  updateTime : Nat
deriving DecidableEq

/-- `store.PolicyFilter`. -/
structure PolicyFilter where
  policyType : Option String
  enabled : Option Bool
deriving DecidableEq

/-- `store.PolicyListOptions`. -/
structure PolicyListOptions where
  filter : Option PolicyFilter
  orderBy : String
  pageToken : Option String
  pageSize : Int

/-- `store.PolicyListResult`. -/
structure PolicyListResult where
  policies : List DbPolicy
  nextPageToken : String
deriving DecidableEq

/-! #### Page tokens: Go `base64.StdEncoding` over `strconv.Itoa` /
`strconv.Atoi` -/

def b64Alphabet : String :=
  "ABCDEFGHIJKLMNOPQRSTUVWXYZabcdefghijklmnopqrstuvwxyz0123456789+/"

/-- The base64 character of one sextet. -/
def sextetChar (n : Nat) : Char :=
  b64Alphabet.data.getD n 'A'

/-- The sextet of one base64 character, `none` for characters outside
the alphabet. -/
def sextetOfChar (c : Char) : Option Nat :=
  b64Alphabet.data.indexOf? c

/-- Standard base64 encoding of a byte list (three bytes per group,
padded with `=`). -/
def b64EncodeBytes : List Nat → List Char
  | [] => []
  | [b0] => [sextetChar (b0 / 4), sextetChar (b0 % 4 * 16), '=', '=']
  | [b0, b1] =>
    [sextetChar (b0 / 4), sextetChar (b0 % 4 * 16 + b1 / 16), sextetChar (b1 % 16 * 4), '=']
  | b0 :: b1 :: b2 :: rest =>
    sextetChar (b0 / 4) :: sextetChar (b0 % 4 * 16 + b1 / 16) ::
      sextetChar (b1 % 16 * 4 + b2 / 64) :: sextetChar (b2 % 64) :: b64EncodeBytes rest

/-- Standard base64 decoding; rejects exactly what Go
`base64.StdEncoding.DecodeString` rejects (bad length, characters
outside the alphabet, misplaced padding, nonzero trailing bits). -/
def b64DecodeChars : List Char → Option (List Nat)
  | [] => some []
  | [c0, c1, '=', '='] => do
    let s0 ← sextetOfChar c0
    let s1 ← sextetOfChar c1
    if s1 % 16 = 0 then pure [s0 * 4 + s1 / 16] else none
  | [c0, c1, c2, '='] => do
    let s0 ← sextetOfChar c0
    let s1 ← sextetOfChar c1
    let s2 ← sextetOfChar c2
    if s2 % 4 = 0 then pure [s0 * 4 + s1 / 16, s1 % 16 * 16 + s2 / 4] else none
  | c0 :: c1 :: c2 :: c3 :: rest => do
    let s0 ← sextetOfChar c0
    let s1 ← sextetOfChar c1
    let s2 ← sextetOfChar c2
    let s3 ← sextetOfChar c3
    let tail ← b64DecodeChars rest
    pure ((s0 * 4 + s1 / 16) :: (s1 % 16 * 16 + s2 / 4) :: (s2 % 4 * 64 + s3) :: tail)
  | _ => none

/-- Decimal digit accumulation for `strconv.Atoi`. -/
def decDigitsAux (acc : Nat) : List Char → Option Nat
  | [] => some acc
  | c :: rest =>
    if c.isDigit then decDigitsAux (acc * 10 + (c.toNat - 48)) rest else none

def decDigits (cs : List Char) : Option Nat :=
  if cs.isEmpty then none else decDigitsAux 0 cs

/-- Models `strconv.Atoi` (overflow is out of scope: page offsets stay
far below the int range). -/
def goAtoi (s : String) : Option Int :=
  match s.data with
  | '-' :: rest => (decDigits rest).map (fun n => -(n : Int))
  | '+' :: rest => (decDigits rest).map (fun n => (n : Int))
  | cs => (decDigits cs).map (fun n => (n : Int))

/-- The bytes of a string (ASCII range in every use below). -/
def strBytes (s : String) : List Nat :=
  s.data.map Char.toNat

/-- A string from bytes, models Go `string(b)` for ASCII bytes. -/
def bytesStr (bs : List Nat) : String :=
  String.mk (bs.map Char.ofNat)

/-- The page token the store produces for a given offset:
`base64.StdEncoding.EncodeToString([]byte(strconv.Itoa(offset)))`. -/
def encodeTokenNat (n : Nat) : String :=
  String.mk (b64EncodeBytes (strBytes (toString n)))

/-- The offset the store reads from a page token, with the source
fallbacks: any decode or parse failure leaves the offset at 0.  A
negative parsed offset is clamped to 0 here; gorm drops a negative
offset, and the claims only concern tokens encoding a natural offset. -/
def decodeTokenOffset (tok : String) : Nat :=
  match b64DecodeChars tok.data with
  | none => 0
  | some bytes =>
    match goAtoi (bytesStr bytes) with
    | none => 0
    | some i => i.toNat

/-! #### Listing -/

/-- The WHERE clauses built from the filter. -/
def rowMatchesFilter (f : Option PolicyFilter) (r : DbPolicy) : Bool :=
  match f with
  | none => true
  | some f =>
    (match f.policyType with
     | none => true
     | some t => r.policyType == t) &&
    (match f.enabled with
     | none => true
     | some e => r.enabled == e)

/-- The default ordering `policy_type ASC, priority ASC, id ASC`. -/
def rowLeDefault (r s : DbPolicy) : Bool :=
  if r.policyType ≠ s.policyType then strLe r.policyType s.policyType
  else if r.priority ≠ s.priority then decide (r.priority ≤ s.priority)
  else strLe r.id s.id

def insertRow (r : DbPolicy) : List DbPolicy → List DbPolicy
  | [] => [r]
  | s :: rest => if rowLeDefault r s then r :: s :: rest else s :: insertRow r rest

def sortRowsDefault : List DbPolicy → List DbPolicy
  | [] => []
  | r :: rest => insertRow r (sortRowsDefault rest)

/-- The filtered and ordered row sequence a List query sees.  A caller
supplied `OrderBy` is passed verbatim to SQL; the service layer only
forwards validated keys, and the pagination behaviour under
verification is insensitive to the ordering stage, so the model orders
by the default key throughout. -/
def orderedRows (db : List DbPolicy) (opts : Option PolicyListOptions) : List DbPolicy :=
  let filtered :=
    match opts with
    | some o => db.filter (rowMatchesFilter o.filter)
    | none => db
  sortRowsDefault filtered

/-- Models `(*PolicyStore).List`. -/
def listPolicies (db : List DbPolicy) (opts : Option PolicyListOptions) : PolicyListResult :=
  let pageSize : Nat :=
    match opts with
    | some o => if 0 < o.pageSize then o.pageSize.toNat else 50
    | none => 50
  let offset : Nat :=
    match opts with
    | some o =>
      match o.pageToken with
      | some t => if t ≠ "" then decodeTokenOffset t else 0
      | none => 0
    | none => 0
  let fetched := ((orderedRows db opts).drop offset).take (pageSize + 1)
  if pageSize < fetched.length then
    { policies := fetched.take pageSize
      nextPageToken := encodeTokenNat (offset + pageSize) }
  else
    { policies := fetched, nextPageToken := "" }

/-! #### Errors and unique-constraint discrimination -/

/-- Store-level errors: the four sentinels plus a raw driver error.
`driver true` stands for an error that `errors.Is(err,
gorm.ErrDuplicatedKey)` or the `unique` / `duplicate key` message probe
recognises as a duplicate-key violation; `driver false` for any other
driver failure. -/
inductive StoreError where
  | policyNotFound
  | policyIDTaken
  | displayNamePolicyTypeTaken
  | priorityPolicyTypeTaken
  | driver (dupKey : Bool)
deriving DecidableEq

/-- Whether the incoming error is recognised as a duplicate-key error. -/
def StoreError.isDuplicateKeyErr : StoreError → Bool
  | .driver d => d
  | _ => false

/-- The probe list of `mapUniqueConstraintError`, in source order:
id, then display_name plus policy_type, then priority plus policy_type. -/
def uniqueChecks (attempted : DbPolicy) : List (StoreError × (DbPolicy → Bool)) :=
  [(.policyIDTaken, fun r => r.id == attempted.id),
   (.displayNamePolicyTypeTaken,
     fun r => r.displayName == attempted.displayName && r.policyType == attempted.policyType),
   (.priorityPolicyTypeTaken,
     fun r => r.priority == attempted.priority && r.policyType == attempted.policyType)]

/-- The probe loop: a fresh read per check (`query.First`), excluding
the row being updated when `isUpdate`; the first check that finds a row
decides the sentinel, and the raw error is kept when no check hits. -/
def probeChecks (db : List DbPolicy) (attempted : DbPolicy) (isUpdate : Bool)
    (err : StoreError) : List (StoreError × (DbPolicy → Bool)) → StoreError
  | [] => err
  | (sentinel, q) :: rest =>
    match db.find? (fun r => q r && (!isUpdate || r.id != attempted.id)) with
    | some _ => sentinel
    | none => probeChecks db attempted isUpdate err rest

/-- Models `(*PolicyStore).mapUniqueConstraintError`. -/
def mapUniqueConstraintError (db : List DbPolicy) (attempted : DbPolicy) (isUpdate : Bool)
    (err : StoreError) : StoreError :=
  if !err.isDuplicateKeyErr then err
  else probeChecks db attempted isUpdate err (uniqueChecks attempted)

/-- Whether inserting `row` violates one of the three unique indexes. -/
def insertConflictB (db : List DbPolicy) (row : DbPolicy) : Bool :=
  db.any (fun r =>
    r.id == row.id ||
    (r.displayName == row.displayName && r.policyType == row.policyType) ||
    (r.priority == row.priority && r.policyType == row.policyType))

/-- Models `(*PolicyStore).Create`.  `now` feeds `autoCreateTime`;
`fault` injects a non-duplicate driver failure (connection loss and the
like), which the source also routes through
`mapUniqueConstraintError`. -/
def storeCreate (db : List DbPolicy) (p : DbPolicy) (now : Nat) (fault : Bool) :
    Except StoreError (DbPolicy × List DbPolicy) :=
  let row := { p with createTime := now, updateTime := now }
  if fault then .error (mapUniqueConstraintError db row false (.driver false))
  else if insertConflictB db row then
    .error (mapUniqueConstraintError db row false (.driver true))
  else .ok (row, db ++ [row])

/-- Models `(*PolicyStore).Get`. -/
def storeGet (db : List DbPolicy) (id : String) : Except StoreError DbPolicy :=
  match db.find? (fun r => r.id == id) with
  | some r => .ok r
  | none => .error .policyNotFound

/-- Whether writing the mutable columns of `newRow` (keyed by its id)
violates one of the two composite unique indexes. -/
def updateConflictB (db : List DbPolicy) (newRow : DbPolicy) : Bool :=
  db.any (fun r =>
    r.id != newRow.id &&
    ((r.displayName == newRow.displayName && r.policyType == newRow.policyType) ||
     (r.priority == newRow.priority && r.policyType == newRow.policyType)))

/-- Models `(*PolicyStore).Update`: writes only the mutable columns
(`display_name`, `description`, `label_selector`, `priority`,
`package_name`, `enabled`), advances `update_time`, answers
`ErrPolicyNotFound` when no row matches. -/
def storeUpdate (db : List DbPolicy) (p : DbPolicy) (now : Nat) :
    Except StoreError (DbPolicy × List DbPolicy) :=
  match db.find? (fun r => r.id == p.id) with
  | none => .error .policyNotFound
  | some old =>
    let newRow := { old with
      displayName := p.displayName
      description := p.description
      labelSelector := p.labelSelector
      priority := p.priority
      packageName := p.packageName
      enabled := p.enabled
      updateTime := now }
    if updateConflictB db newRow then
      .error (mapUniqueConstraintError db p true (.driver true))
    else .ok (newRow, db.map (fun r => if r.id == p.id then newRow else r))

/-- Models `(*PolicyStore).Delete`. -/
def storeDelete (db : List DbPolicy) (id : String) : Except StoreError (List DbPolicy) :=
  if db.any (fun r => r.id == id) then .ok (db.filter (fun r => r.id != id))
  else .error .policyNotFound


/-! ### Service layer (internal/service)

API models carry optional fields (`v1alpha1.Policy` uses pointers). -/

/-- `v1alpha1.Policy`, the wire model. -/
structure ApiPolicy where
  id : Option String
  path : Option String
  displayName : Option String
  description : Option String
  policyType : Option String
  regoCode : Option String
  priority : Option Int
  enabled : Option Bool
  labelSelector : Option (List (String × String))
  createTime : Option Nat
  updateTime : Option Nat
deriving DecidableEq

/-- The empty PATCH body: every field absent. -/
def emptyApiPolicy : ApiPolicy :=
  { id := none, path := none, displayName := none, description := none, policyType := none
    regoCode := none, priority := none, enabled := none, labelSelector := none
    createTime := none, updateTime := none }

def MinPriority : Int := 1
def MaxPriority : Int := 1000
def DefaultPriority : Int := 500

/-- `service.ErrorType`. -/
inductive ErrorType where
  | invalidArgument
  | notFound
  | alreadyExists
  | internal
  | failedPrecondition
  | rejected
  | policyConflict
deriving DecidableEq

/-- `service.ServiceError` (the wrapped cause of an internal error is
not observed by any claim and is omitted). -/
structure ServiceError where
  type : ErrorType
  message : String
  detail : String
deriving DecidableEq

def NewInvalidArgumentError (message detail : String) : ServiceError :=
  { type := .invalidArgument, message := message, detail := detail }

def NewNotFoundError (message detail : String) : ServiceError :=
  { type := .notFound, message := message, detail := detail }

def NewPolicyNotFoundError (policyID : String) : ServiceError :=
  NewNotFoundError "Policy not found"
    ("Policy with ID defined by " ++ policyID ++ " does not exist")

def NewAlreadyExistsError (message detail : String) : ServiceError :=
  { type := .alreadyExists, message := message, detail := detail }

def NewPolicyAlreadyExistsError (policyID : String) : ServiceError :=
  NewAlreadyExistsError "Policy already exists"
    ("A policy with ID " ++ policyID ++ " already exists")

def NewPolicyDisplayNamePolicyTypeTakenError (displayName policyType : String) : ServiceError :=
  NewAlreadyExistsError "Policy display name and policy type already exists"
    ("A policy with display name " ++ displayName ++ " and policy type " ++ policyType ++
      " already exists")

def NewPolicyPriorityPolicyTypeTakenError (priority : Int) (policyType : String) : ServiceError :=
  NewAlreadyExistsError "Policy priority and policy type already exists"
    ("A policy with priority " ++ toString priority ++ " and policy type " ++ policyType ++
      " already exists")

def NewInternalError (message detail : String) : ServiceError :=
  { type := .internal, message := message, detail := detail }

def NewPolicyRejectedError (policyID reason : String) : ServiceError :=
  { type := .rejected
    message := "Request rejected by policy " ++ policyID
    detail := reason }

def NewPolicyConflictError (lowerPolicyID field higherPolicyID : String) : ServiceError :=
  { type := .policyConflict
    message := "Policy " ++ lowerPolicyID ++ " attempted to modify field " ++ field ++
      " which was set by higher-priority policy " ++ higherPolicyID
    detail := "Field " ++ field ++ " is immutable after being set by policy " ++
      higherPolicyID }

/-- Models `service.processPolicyStoreError`. -/
def processPolicyStoreError (err : StoreError) (dbPolicy : DbPolicy) (operation : String) :
    ServiceError :=
  match err with
  | .policyIDTaken => NewPolicyAlreadyExistsError dbPolicy.id
  | .displayNamePolicyTypeTaken =>
    NewPolicyDisplayNamePolicyTypeTakenError dbPolicy.displayName dbPolicy.policyType
  | .priorityPolicyTypeTaken =>
    NewPolicyPriorityPolicyTypeTakenError dbPolicy.priority dbPolicy.policyType
  | .policyNotFound => NewPolicyNotFoundError dbPolicy.id
  | .driver _ => NewInternalError ("Failed to " ++ operation ++ " policy") "store error"

/-- Models `service.validatePriority`. -/
def validatePriority (priority : Option Int) : Option ServiceError :=
  match priority with
  | some p =>
    if p < MinPriority || p > MaxPriority then
      some (NewInvalidArgumentError "priority must be between 1 and 1000"
        "The priority field must be a value between 1 and 1000")
    else none
  | none => none

/-- Models `service.validatePostInput`. -/
def validatePostInput (policy : ApiPolicy) : Option ServiceError :=
  match policy.displayName with
  | none =>
    some (NewInvalidArgumentError "display_name is required"
      "The display_name field must be present and non-empty")
  | some dn =>
    if goTrimSpace dn = "" then
      some (NewInvalidArgumentError "display_name is required"
        "The display_name field must be present and non-empty")
    else
      match policy.policyType with
      | none =>
        some (NewInvalidArgumentError "policy_type is required"
          "The policy_type field must be present (GLOBAL or USER)")
      | some _ =>
        match policy.regoCode with
        | none =>
          some (NewInvalidArgumentError "rego_code is required"
            "The rego_code field must be present and non-empty")
        | some rc =>
          if goTrimSpace rc = "" then
            some (NewInvalidArgumentError "rego_code is required"
              "The rego_code field must be present and non-empty")
          else validatePriority policy.priority

/-- One character of the AEP-122 id pattern interior (`[a-z0-9-]`). -/
def isIdMidChar (c : Char) : Bool :=
  (97 ≤ c.toNat && c.toNat ≤ 122) || (48 ≤ c.toNat && c.toNat ≤ 57) || c.toNat = 45

/-- One character of the AEP-122 id pattern tail position (`[a-z0-9]`). -/
def isIdEndChar (c : Char) : Bool :=
  (97 ≤ c.toNat && c.toNat ≤ 122) || (48 ≤ c.toNat && c.toNat ≤ 57)

/-- The id pattern of internal/service/policy.go:
`^[a-z]([a-z0-9-]{0,61}[a-z0-9])?$`. -/
def validIdB (s : String) : Bool :=
  match s.data with
  | [] => false
  | c :: rest =>
    (97 ≤ c.toNat && c.toNat ≤ 122) &&
    (match rest.getLast? with
     | none => true
     | some lastc =>
       rest.length ≤ 62 && rest.dropLast.all isIdMidChar && isIdEndChar lastc)

/-- Models `service.getPolicyID`; `uuid.New()` is modelled by the
caller-supplied fresh name `genId`. -/
def getPolicyID (clientID : Option String) (genId : String) : Except ServiceError String :=
  match clientID with
  | some cid =>
    if cid ≠ "" then
      if validIdB cid then .ok cid
      else
        .error (NewInvalidArgumentError "Invalid policy ID format"
          ("Policy ID " ++ cid ++ " does not match required format"))
    else .ok genId
  | none => .ok genId

/-- Models `service.mergePolicyOntoPolicy` (RFC 7396 merge restricted
to the mutable fields; read-only and immutable fields are not merged). -/
def mergePolicyOntoPolicy (patch : Option ApiPolicy) (existing : ApiPolicy) : ApiPolicy :=
  match patch with
  | none => existing
  | some p =>
    { existing with
      displayName := match p.displayName with
        | some v => some v
        | none => existing.displayName
      description := match p.description with
        | some v => some v
        | none => existing.description
      enabled := match p.enabled with
        | some v => some v
        | none => existing.enabled
      labelSelector := match p.labelSelector with
        | some v => some v
        | none => existing.labelSelector
      priority := match p.priority with
        | some v => some v
        | none => existing.priority
      regoCode := match p.regoCode with
        | some v => some v
        | none => existing.regoCode }

/-- Models `service.validatePatchInput`. -/
def validatePatchInput (patch : Option ApiPolicy) : Option ServiceError :=
  match patch with
  | none => none
  | some p =>
    match p.regoCode with
    | some rc =>
      if goTrimSpace rc = "" then
        some (NewInvalidArgumentError "rego_code cannot be empty"
          "When rego_code is provided in the patch it must be non-empty")
      else validatePriority p.priority
    | none => validatePriority p.priority

/-- The per-field test of `validatePatchImmutableFields`: the patch
supplies the field and its value differs from the current one (a
missing current value also counts as a difference). -/
def patchChanges {a : Type} [DecidableEq a] (pv ev : Option a) : Bool :=
  match pv with
  | some v =>
    match ev with
    | some e => v != e
    | none => true
  | none => false

/-- Models `service.validatePatchImmutableFields`: a read-only or
immutable field present in the patch must equal the current value. -/
def validatePatchImmutableFields (patch : Option ApiPolicy) (existing : ApiPolicy) :
    Option ServiceError :=
  match patch with
  | none => none
  | some p =>
    if patchChanges p.path existing.path then
      some (NewInvalidArgumentError "path cannot be updated"
        "The path field is read-only and cannot be changed")
    else if patchChanges p.id existing.id then
      some (NewInvalidArgumentError "id cannot be updated"
        "The id field is read-only and cannot be changed")
    else if patchChanges p.policyType existing.policyType then
      some (NewInvalidArgumentError "policy_type is immutable"
        "The policy_type field cannot be changed after creation")
    else if patchChanges p.createTime existing.createTime then
      some (NewInvalidArgumentError "create_time cannot be updated"
        "The create_time field is read-only and cannot be changed")
    else if patchChanges p.updateTime existing.updateTime then
      some (NewInvalidArgumentError "update_time cannot be updated"
        "The update_time field is read-only and cannot be changed")
    else none

/-- Models `service.APIToDBModel`: strips `rego_code`; `package_name`
is set separately by the caller (source doc comment); timestamps are
server-maintained and left at zero here. -/
def APIToDBModel (api : ApiPolicy) (id : String) : DbPolicy :=
  { id := id
    displayName := api.displayName.getD ""
    policyType := api.policyType.getD ""
    description := api.description.getD ""
    enabled := api.enabled.getD true
    priority := api.priority.getD DefaultPriority
    labelSelector := api.labelSelector.getD []
    packageName := ""
    createTime := 0
    updateTime := 0 }

/-- Models `service.DBToAPIModel`: sets `path`, answers an empty
`rego_code`, omits empty `description` and empty `label_selector`. -/
def DBToAPIModel (db : DbPolicy) : ApiPolicy :=
  { id := some db.id
    path := some ("policies/" ++ db.id)
    displayName := some db.displayName
    policyType := some db.policyType
    priority := some db.priority
    enabled := some db.enabled
    createTime := some db.createTime
    updateTime := some db.updateTime
    regoCode := some ""
    description := if db.description ≠ "" then some db.description else none
    labelSelector := if db.labelSelector.length > 0 then some db.labelSelector else none }

/-! ### Engine client and two-store system state

The engine-integrated policy service (the two-argument
`service.NewPolicyService(dataStore, opaClient)` that cmd/policy-manager
wires and the service tests exercise) is not among the sources under
verification; only its callers, helpers and tests are.  Its Create and
Update bodies below are therefore modelled from the specification
(section 4.3), on top of the helper functions above, which are present
in the sources. -/

/-- Engine-client sentinel errors (internal/opa/errors.go). -/
inductive OpaErr where
  | policyNotFound
  | invalidRego
  | unavailable
  | clientInternal
deriving DecidableEq

/-- Models `service.handleOPAError` (internal/service/opa_errors.go). -/
def handleOPAError (err : OpaErr) (operation : String) : ServiceError :=
  match err with
  | .policyNotFound =>
    NewInternalError ("Policy Rego code not found in OPA during " ++ operation)
      "OPA does not have the Rego code for this policy"
  | .invalidRego =>
    NewInvalidArgumentError "Invalid Rego code"
      "The Rego code contains syntax errors"
  | .unavailable =>
    NewInternalError ("OPA service unavailable during " ++ operation)
      "Unable to communicate with the OPA service"
  | .clientInternal =>
    NewInternalError ("OPA Client internal error during " ++ operation)
      "An unexpected error occurred while communicating with OPA"

/-- One engine call, recorded in order of issue. -/
inductive EngineOp where
  | storeOp (id rego : String)
  | deleteOp (id : String)
  | getOp (id : String)
deriving DecidableEq

/-- Failure injection for the engine endpoints: which calls fail and
how (the external engine may refuse a program or be unreachable). -/
structure EngineBehavior where
  storeErr : String → String → Option OpaErr
  fetchErr : String → Option OpaErr
  deleteErr : String → Option OpaErr

/-- The two stores plus the trace of engine calls issued so far. -/
structure SysState where
  db : List DbPolicy
  engine : List (String × String)
  engineLog : List EngineOp

/-- Writes a binding into a string map. -/
def setStr : List (String × String) → String → String → List (String × String)
  | [], k, v => [(k, v)]
  | (k2, v2) :: rest, k, v =>
    if k2 == k then (k, v) :: rest else (k2, v2) :: setStr rest k v

/-- Removes a binding from a string map. -/
def removeStr (m : List (String × String)) (k : String) : List (String × String) :=
  m.filter (fun kv => kv.1 != k)

/-- The engine `StorePolicy(id, rego)` call: stores the source under
the policy id unless the behaviour makes the call fail. -/
def engineStorePolicy (beh : EngineBehavior) (st : SysState) (id rego : String) :
    SysState × Option OpaErr :=
  let st2 := { st with engineLog := st.engineLog ++ [.storeOp id rego] }
  match beh.storeErr id rego with
  | some e => (st2, some e)
  | none => ({ st2 with engine := setStr st2.engine id rego }, none)

/-- The engine `GetPolicy(id)` call. -/
def engineGetPolicy (beh : EngineBehavior) (st : SysState) (id : String) :
    SysState × Except OpaErr String :=
  let st2 := { st with engineLog := st.engineLog ++ [.getOp id] }
  match beh.fetchErr id with
  | some e => (st2, .error e)
  | none =>
    match lookupStr st2.engine id with
    | some rego => (st2, .ok rego)
    | none => (st2, .error .policyNotFound)

/-- The engine `DeletePolicy(id)` call; callers use it best-effort and
ignore its outcome, so only the state is returned. -/
def engineDeletePolicy (beh : EngineBehavior) (st : SysState) (id : String) : SysState :=
  let st2 := { st with engineLog := st.engineLog ++ [.deleteOp id] }
  match beh.deleteErr id with
  | some _ => st2
  | none => { st2 with engine := removeStr st2.engine id }

/-- Modelled from the spec: the Create protocol of the engine-integrated
`PolicyService.CreatePolicy`, whose body is missing from the sources
under verification (spec section 4.3), with the operation order fixed by
the in-src tests of that service (internal/service/evaluation_test.go,
the duplicate-id cases): validate the input, resolve the id, extract the
package name, insert the row with `package_name` set, and only after a
successful insert store the Rego source in the engine under the id — a
failed insert returns the store error mapped to its sentinel kind with
the engine never called, so the previously stored source survives; when
the engine then refuses the source, the inserted row is removed
best-effort and the engine error is mapped.  `genId` models
`uuid.New()`; `now` the server clock; `dbFault` injects a non-duplicate
driver failure. -/
def createPolicy (beh : EngineBehavior) (st : SysState) (policy : ApiPolicy)
    (clientID : Option String) (genId : String) (now : Nat) (dbFault : Bool) :
    SysState × Except ServiceError ApiPolicy :=
  match validatePostInput policy with
  | some e => (st, .error e)
  | none =>
    match getPolicyID clientID genId with
    | .error e => (st, .error e)
    | .ok policyID =>
      let regoCode := policy.regoCode.getD ""
      match ExtractPackageName regoCode with
      | .error _ =>
        (st, .error (NewInvalidArgumentError "Invalid Rego code"
          "The Rego code has no valid package declaration"))
      | .ok packageName =>
        let dbPolicy := { APIToDBModel policy policyID with packageName := packageName }
        match storeCreate st.db dbPolicy now dbFault with
        | .error serr => (st, .error (processPolicyStoreError serr dbPolicy "create"))
        | .ok (created, db2) =>
          match engineStorePolicy beh { st with db := db2 } policyID regoCode with
          | (st2, some e) =>
            ({ st2 with db :=
                match storeDelete st2.db policyID with
                | .ok db3 => db3
                | .error _ => st2.db },
              .error (handleOPAError e "create"))
          | (st2, none) => (st2, .ok (DBToAPIModel created))

/-- From claim C1: the engine-first Create protocol the claim asserts —
store the Rego source in the engine under the id before the insert, and
on a uniqueness conflict or internal DB error delete the engine source
best-effort.  The claim theorems compare it with the test-corrected
model above. -/
def claimC1Create (beh : EngineBehavior) (st : SysState) (policy : ApiPolicy)
    (clientID : Option String) (genId : String) (now : Nat) (dbFault : Bool) :
    SysState × Except ServiceError ApiPolicy :=
  match validatePostInput policy with
  | some e => (st, .error e)
  | none =>
    match getPolicyID clientID genId with
    | .error e => (st, .error e)
    | .ok policyID =>
      let regoCode := policy.regoCode.getD ""
      match ExtractPackageName regoCode with
      | .error _ =>
        (st, .error (NewInvalidArgumentError "Invalid Rego code"
          "The Rego code has no valid package declaration"))
      | .ok packageName =>
        match engineStorePolicy beh st policyID regoCode with
        | (st2, some e) => (st2, .error (handleOPAError e "create"))
        | (st2, none) =>
          let dbPolicy := { APIToDBModel policy policyID with packageName := packageName }
          match storeCreate st2.db dbPolicy now dbFault with
          | .error serr =>
            (engineDeletePolicy beh st2 policyID,
              .error (processPolicyStoreError serr dbPolicy "create"))
          | .ok (created, db2) => ({ st2 with db := db2 }, .ok (DBToAPIModel created))

/-- Modelled from the spec: the Update protocol of the engine-integrated
`PolicyService.UpdatePolicy`, whose body is missing from the sources
under verification (spec section 4.3): validate the patch, fetch the
current row, check the immutable fields, merge; when the patch carries
`rego_code`, fetch the old source for rollback and store the new source,
recomputing `package_name`; write the row, restoring the old source
best-effort when the write fails. -/
def updatePolicy (beh : EngineBehavior) (st : SysState) (id : String)
    (patch : Option ApiPolicy) (now : Nat) : SysState × Except ServiceError ApiPolicy :=
  match validatePatchInput patch with
  | some e => (st, .error e)
  | none =>
    match storeGet st.db id with
    | .error _ => (st, .error (NewPolicyNotFoundError id))
    | .ok existingDB =>
      let existing := DBToAPIModel existingDB
      match validatePatchImmutableFields patch existing with
      | some e => (st, .error e)
      | none =>
        let merged := mergePolicyOntoPolicy patch existing
        match patch.bind (fun p => p.regoCode) with
        | none =>
          let dbPolicy := { APIToDBModel merged id with packageName := existingDB.packageName }
          match storeUpdate st.db dbPolicy now with
          | .error serr => (st, .error (processPolicyStoreError serr dbPolicy "update"))
          | .ok (updated, db2) => ({ st with db := db2 }, .ok (DBToAPIModel updated))
        | some newRego =>
          match ExtractPackageName newRego with
          | .error _ =>
            (st, .error (NewInvalidArgumentError "Invalid Rego code"
              "The Rego code has no valid package declaration"))
          | .ok newPkg =>
            match engineGetPolicy beh st id with
            | (st2, .error e) => (st2, .error (handleOPAError e "update"))
            | (st2, .ok oldRego) =>
              match engineStorePolicy beh st2 id newRego with
              | (st3, some e) => (st3, .error (handleOPAError e "update"))
              | (st3, none) =>
                let dbPolicy := { APIToDBModel merged id with packageName := newPkg }
                match storeUpdate st3.db dbPolicy now with
                | .error serr =>
                  ((engineStorePolicy beh st3 id oldRego).1,
                    .error (processPolicyStoreError serr dbPolicy "update"))
                | .ok (updated, db2) => ({ st3 with db := db2 }, .ok (DBToAPIModel updated))

/-! ### Evaluation service (internal/service evaluation source) -/

/-- Models `mapsEqual`: the source compares the `json.Marshal` strings
of the two maps; marshalling prints object keys sorted and is injective
on the values modelled here, so string equality is equality of the
canonical forms. -/
def mapsEqual (a b : JFields) : Bool :=
  J.beq (J.canon (.obj a)) (J.canon (.obj b))

/-- `service.EvaluationStatus`. -/
inductive EvalStatus where
  | approved
  | modified
deriving DecidableEq

/-- `service.EvaluationRequest`. -/
structure EvaluationRequest where
  serviceInstance : JFields
  requestLabels : List (String × String)

/-- `service.EvaluationResponse`. -/
structure EvaluationResponse where
  evaluatedServiceInstance : JFields
  selectedProvider : String
  status : EvalStatus

/-- The external engine as an oracle: package name and input document
to evaluation result; `.error` stands for any transport or engine
failure (`opaClient.EvaluatePolicy` returning a non-nil error). -/
def EvalOracle : Type :=
  String → JFields → Except Unit EvaluationResult

/-- The working state threaded through the policy loop. -/
structure EvalState where
  currentSpec : JFields
  selectedProvider : String
  constraintCtx : ConstraintContext

/-- The engine input `map[string]any{"spec": currentSpec, "provider":
selectedProvider}`. -/
def evalInput (s : EvalState) : JFields :=
  .cons "spec" (.obj s.currentSpec) (.cons "provider" (.str s.selectedProvider) .nil)

/-- The provider update at the end of one loop iteration. -/
def updateProvider (decision : PolicyDecision) (current : String) : String :=
  if decision.selectedProvider ≠ "" then decision.selectedProvider else current

/-- The policy loop of `evaluationService.EvaluateRequest`, one
iteration per policy in store order. -/
def evalLoop (oracle : EvalOracle) (labels : List (String × String)) :
    List DbPolicy → EvalState → Except ServiceError EvalState
  | [], s => .ok s
  | policy :: rest, s =>
    if !MatchesLabelSelector policy.labelSelector labels then evalLoop oracle labels rest s
    else
      match oracle policy.packageName (evalInput s) with
      | .error _ =>
        .error (NewInternalError ("Failed to evaluate policy " ++ policy.id) "engine error")
      | .ok evalResult =>
        if !evalResult.defined then evalLoop oracle labels rest s
        else
          let decision := ParsePolicyDecision evalResult.result
          if decision.rejected then
            .error (NewPolicyRejectedError policy.id decision.rejectionReason)
          else
            match decision.outputSpec with
            | some outSpec =>
              match s.constraintCtx.CheckViolations s.currentSpec outSpec with
              | firstViolation :: _ =>
                .error (NewPolicyConflictError policy.id firstViolation
                  (s.constraintCtx.GetSetBy firstViolation))
              | [] =>
                evalLoop oracle labels rest
                  { currentSpec := outSpec
                    selectedProvider := updateProvider decision s.selectedProvider
                    constraintCtx :=
                      s.constraintCtx.MarkChangedFields s.currentSpec outSpec policy.id }
            | none =>
              evalLoop oracle labels rest
                { s with selectedProvider := updateProvider decision s.selectedProvider }

/-- The list options `EvaluateRequest` uses: enabled policies only,
default ordering, page size 1000. -/
def evalListOptions : PolicyListOptions :=
  { filter := some { policyType := none, enabled := some true }
    orderBy := ""
    pageToken := none
    pageSize := 1000 }

/-- Models `evaluationService.EvaluateRequest`.  The two deep copies
taken at entry are the identity on the JSON model, so `originalSpec`
is the request document itself. -/
def evaluateRequest (oracle : EvalOracle) (db : List DbPolicy) (req : EvaluationRequest) :
    Except ServiceError EvaluationResponse :=
  let policies := (listPolicies db (some evalListOptions)).policies
  match evalLoop oracle req.requestLabels policies
      { currentSpec := req.serviceInstance
        selectedProvider := ""
        constraintCtx := NewConstraintContext } with
  | .error e => .error e
  | .ok s =>
    .ok { evaluatedServiceInstance := s.currentSpec
          selectedProvider := s.selectedProvider
          status := if mapsEqual req.serviceInstance s.currentSpec then .approved else .modified }

/-! ### Claim-side definitions

Each of the following definitions follows the words of one claim (not
the source); the claim theorems compare them with the source
embeddings. -/

/-- From claim C4: the paths the claim says `CheckViolations` returns —
dotted paths in the frozen set whose value changed between the two
documents, except that children of a frozen parent are covered by the
parent and not separately reported.  `ks` is the key chain of the
path. -/
def claimC4Paths (imm : String → Bool) (before after : JFields) (ks : List String) : Prop :=
  ks ≠ [] ∧
  imm (dottedPath ks) = true ∧
  (match ks.dropLast, ks.getLast? with
   | pre, some k => (resolveFields before pre).bind (fun b1 => b1.lookup k) ≠
       (resolveFields after pre).bind (fun a1 => a1.lookup k)
   | _, none => False) ∧
  (∀ pre, pre ≠ [] → pre ≠ ks → (∃ suf, pre ++ suf = ks) → imm (dottedPath pre) = false)

/-- From claim C8: one dot-separated identifier of a package path. -/
def isIdentChars : List Char → Bool
  | [] => false
  | c :: rest =>
    (c.isAlpha || c = '_') && rest.all (fun d => d.isAlphanum || d = '_')

/-- From claim C8: one or more dot-separated identifiers. -/
def isDottedIdents (s : String) : Bool :=
  let parts := s.data.splitOn '.'
  !parts.isEmpty && parts.all isIdentChars

/-- From claim C8: the first line that is neither blank nor a `#`
comment (compared after trimming, like the source loop). -/
def firstSignificantLine : List String → Option String
  | [] => none
  | line :: rest =>
    let t := goTrimSpace line
    if t = "" || strStartsWith t "#" then firstSignificantLine rest else some t

/-- From claim C8: the extractor the claim describes — the first
non-skipped line must begin with `package` plus whitespace and a
dot-separated identifier chain; any other first non-skipped line is an
error. -/
def claimC8Extract (regoCode : String) : Except RegoErr String :=
  match firstSignificantLine (splitNl regoCode) with
  | none => .error .noPackageDeclaration
  | some t =>
    if t = "package" then .error .emptyPackageDeclaration
    else
      match t.data with
      | 'p' :: 'a' :: 'c' :: 'k' :: 'a' :: 'g' :: 'e' :: c :: rest =>
        if isGoSpace c then
          let name := goTrimSpace (beforeHash (String.mk rest))
          if name = "" then .error .emptyPackageDeclaration
          else if isDottedIdents name then .ok name
          else .error .noPackageDeclaration
        else .error .noPackageDeclaration
      | _ => .error .noPackageDeclaration

/-- From claim C6: probe the three uniqueness predicates in the fixed
order id, display_name plus policy_type, priority plus policy_type,
each probe excluding the row being updated on updates; answer the first
matching sentinel, or the raw error when none matches. -/
def claimC6FirstMatch (db : List DbPolicy) (attempted : DbPolicy) (isUpdate : Bool)
    (err : StoreError) : StoreError :=
  let notSelf := fun (r : DbPolicy) => !isUpdate || r.id != attempted.id
  if db.any (fun r => r.id == attempted.id && notSelf r) then .policyIDTaken
  else if db.any (fun r =>
      r.displayName == attempted.displayName && r.policyType == attempted.policyType &&
        notSelf r) then .displayNamePolicyTypeTaken
  else if db.any (fun r =>
      r.priority == attempted.priority && r.policyType == attempted.policyType &&
        notSelf r) then .priorityPolicyTypeTaken
  else err

/-- The decision one line of the extractor loop makes: `none` when the
loop skips the line, otherwise the returned result. -/
def lineVerdict (line : String) : Option (Except RegoErr String) :=
  let trimmed := goTrimSpace line
  if trimmed = "" || strStartsWith trimmed "#" then none
  else if trimmed = "package" then some (.error .emptyPackageDeclaration)
  else
    match cutPackageKeyword trimmed with
    | some pkgName =>
      if pkgName ≠ "" then
        some (if goTrimSpace (beforeHash pkgName) = "" then
                .error .emptyPackageDeclaration
              else .ok (goTrimSpace (beforeHash pkgName)))
      else none
    | none => none

/-- Two rows violate one of the three unique indexes together. -/
def rowsConflict (r s : DbPolicy) : Bool :=
  r.id == s.id ||
  (r.displayName == s.displayName && r.policyType == s.policyType) ||
  (r.priority == s.priority && r.policyType == s.policyType)

/-- The database respects the three unique indexes (invariant of every
reachable store state). -/
def dbWfB : List DbPolicy → Bool
  | [] => true
  | r :: rest => rest.all (fun s => !rowsConflict r s) && dbWfB rest

/-- Engine results are decoded from JSON, so their objects never hold a
key twice. -/
def OracleWf (oracle : EvalOracle) : Prop :=
  ∀ pkg inp r, oracle pkg inp = .ok r → (J.obj r.result).wfB = true

/-! ### Concrete fixtures used by witness theorems -/

def fixRow1 : DbPolicy :=
  { id := "pol-a"
    displayName := "A"
    description := ""
    policyType := "GLOBAL"
    labelSelector := []
    priority := 100
    packageName := "policies.a"
    enabled := true
    createTime := 0
    updateTime := 0 }

def fixRow2 : DbPolicy :=
  { fixRow1 with id := "pol-b", displayName := "B", priority := 200, packageName := "policies.b" }

def fixRow3 : DbPolicy :=
  { fixRow1 with id := "pol-c", displayName := "C", priority := 300, packageName := "policies.c" }

/-- A row whose insertion collides with `fixRow1` on the
`(display_name, policy_type)` unique index only. -/
def fixAttempt : DbPolicy :=
  { fixRow1 with id := "pol-x", priority := 500, packageName := "policies.x" }

/-- An engine that accepts everything. -/
def engOk : EngineBehavior :=
  { storeErr := fun _ _ => none, fetchErr := fun _ => none, deleteErr := fun _ => none }

def stEmpty : SysState :=
  { db := [], engine := [], engineLog := [] }

/-- A one-policy system state whose engine holds the matching source. -/
def stOne : SysState :=
  { db := [fixRow1], engine := [("pol-a", "package policies.a")], engineLog := [] }

/-- A create body with the three required fields. -/
def fixApi : ApiPolicy :=
  { emptyApiPolicy with
    displayName := some "New"
    policyType := some "GLOBAL"
    regoCode := some "package policies.newp" }

/-- List options used by the pagination witness: page size 2, token
encoding offset 1. -/
def fixListOpts : PolicyListOptions :=
  { filter := none, orderBy := "", pageToken := some (encodeTokenNat 1), pageSize := 2 }

/-- A two-operation trace: a direct marking of path `a` by `p1`, then a
changed-fields marking that marks `a` again for `p2`. -/
def fixCtxOps : List CtxOp :=
  [.markOp "a" "p1", .markChangedOp .nil (.cons "a" (.str "x") .nil) "p2"]

/-- Keys in nondecreasing order (adjacent comparisons). -/
def fieldsSorted : JFields → Prop
  | .nil => True
  | .cons k _ tl =>
    (match tl with
     | .nil => True
     | .cons l _ _ => strLe k l = true) ∧ fieldsSorted tl

/-! ## Theorems -/

/-- One step of the extractor loop, phrased through the per-line
verdict. -/
theorem extractLoop_cons_verdict (line : String) (rest : List String) :
    extractLoop (line :: rest) =
      match lineVerdict line with
      | some r => r
      | none => extractLoop rest := by
  simp only [extractLoop, lineVerdict]
  split
  · rfl
  · split
    · rfl
    · split
      · split
        · rfl
        · rfl
      · rfl

/-- The loop returns `ok name` exactly when some line decides `ok name`
and every earlier line is skipped. -/
theorem extractLoop_ok_iff (lines : List String) (name : String) :
    extractLoop lines = .ok name ↔
      ∃ pre line suf, lines = pre ++ line :: suf ∧
        (∀ l ∈ pre, lineVerdict l = none) ∧
        lineVerdict line = some (.ok name) := by
  induction lines with
  | nil =>
    simp only [extractLoop]
    constructor
    · intro h
      cases h
    · rintro ⟨pre, line, suf, h, -, -⟩
      cases pre <;> simp at h
  | cons l rest ih =>
    rw [extractLoop_cons_verdict]
    cases hv : lineVerdict l with
    | none =>
      simp only [ih]
      constructor
      · rintro ⟨pre, line, suf, h, hpre, hline⟩
        refine ⟨l :: pre, line, suf, by simp [h], ?_, hline⟩
        intro x hx
        cases hx with
        | head => exact hv
        | tail _ hx2 => exact hpre x hx2
      · rintro ⟨pre, line, suf, h, hpre, hline⟩
        cases pre with
        | nil =>
          simp at h
          rw [h.1] at hv
          rw [hv] at hline
          cases hline
        | cons p pre2 =>
          simp at h
          refine ⟨pre2, line, suf, h.2, ?_, hline⟩
          intro x hx
          exact hpre x (by simp [hx])
    | some r =>
      constructor
      · intro h
        simp only at h
        refine ⟨[], l, rest, by simp, by simp, ?_⟩
        rw [hv, h]
      · rintro ⟨pre, line, suf, h, hpre, hline⟩
        cases pre with
        | nil =>
          simp at h
          rw [h.1] at hv
          rw [hv] at hline
          simp only at hline ⊢
          cases hline
          rfl
        | cons p pre2 =>
          simp at h
          have hnone := hpre p (by simp)
          rw [h.1] at hv
          rw [hnone] at hv
          cases hv

/-- The loop is the first per-line verdict, defaulting to
`NoPackageDeclaration`. -/
theorem extractLoop_eq_findSome (lines : List String) :
    extractLoop lines =
      ((lines.findSome? lineVerdict).getD (.error .noPackageDeclaration)) := by
  induction lines with
  | nil => rfl
  | cons l rest ih =>
    rw [extractLoop_cons_verdict, List.findSome?_cons]
    cases lineVerdict l with
    | none => exact ih
    | some r => rfl

/-- Claim C8 (amended): the extractor scans the lines of the source in
order; a line decides the result when, after trimming, it is exactly
`package` (empty-declaration error) or starts with `package ` and has a
nonempty remainder (the remainder, with any trailing `#` comment cut
and whitespace trimmed, is the package name, or the empty-declaration
error when nothing remains).  Every other line — blank, comment, or any
line that does not match — is skipped, and the first deciding line
wins; when no line decides, the error is `NoPackageDeclaration`.  In
particular a non-package first line is skipped, not an error, and the
extracted name is not validated as dot-separated identifiers. -/
theorem extractPackageName_characterisation (code name : String) :
    ExtractPackageName code =
      (((splitNl code).findSome? lineVerdict).getD (.error .noPackageDeclaration)) ∧
    (ExtractPackageName code = .ok name ↔
      ∃ pre line suf, splitNl code = pre ++ line :: suf ∧
        (∀ l ∈ pre, lineVerdict l = none) ∧
        lineVerdict line = some (.ok name)) :=
  ⟨extractLoop_eq_findSome (splitNl code), extractLoop_ok_iff (splitNl code) name⟩

/-- Claim C8, counterexample: on `"deny = true\npackage test"` the
first non-skipped, non-comment line is `deny = true`, which does not
begin with the `package` keyword, so under the claim the call is an
error; the source skips the line and extracts `test` from the second
line. -/
theorem extractPackageName_claim_counterexample :
    ExtractPackageName "deny = true\npackage test" = .ok "test" ∧
    claimC8Extract "deny = true\npackage test" = .error .noPackageDeclaration ∧
    firstSignificantLine (splitNl "deny = true\npackage test") = some "deny = true" :=
  ⟨rfl, rfl, rfl⟩

/-- Claim C10: `ParsePolicyDecision` is total (it is a plain function
of the result map) and ignores every field whose value has an
unexpected JSON type, keeping the defaults; in particular a decision
whose `rejected` field holds the string `"true"` is not a rejection. -/
theorem parsePolicyDecision_lenient :
    (∀ result : JFields,
      ((∀ b, result.lookup "rejected" ≠ some (.bool b)) →
        (ParsePolicyDecision result).rejected = false) ∧
      ((∀ s, result.lookup "rejection_reason" ≠ some (.str s)) →
        (ParsePolicyDecision result).rejectionReason = "") ∧
      ((∀ fs, result.lookup "output_spec" ≠ some (.obj fs)) →
        (ParsePolicyDecision result).outputSpec = none) ∧
      ((∀ s, result.lookup "selected_provider" ≠ some (.str s)) →
        (ParsePolicyDecision result).selectedProvider = "")) ∧
    (ParsePolicyDecision (.cons "rejected" (.str "true") .nil)).rejected = false := by
  constructor
  · intro result
    refine ⟨?_, ?_, ?_, ?_⟩ <;> intro h <;> simp only [ParsePolicyDecision]
  · rfl

/-- Claim C10, witness: the theorem applied to the concrete result map
holding `rejected: "true"`. -/
theorem parsePolicyDecision_lenient_witness :
    (ParsePolicyDecision (.cons "rejected" (.str "true") .nil)).rejected = false ∧
    (ParsePolicyDecision (.cons "rejected" (.str "true") .nil)).outputSpec = none :=
  ⟨parsePolicyDecision_lenient.2,
    ((parsePolicyDecision_lenient.1 (.cons "rejected" (.str "true") .nil)).2.2.1
      (by intro fs h; simp [JFields.lookup] at h))⟩

/-- One probe of the loop answers its sentinel exactly when some row
satisfies the probe predicate (with the update exclusion). -/
theorem probeChecks_step (db : List DbPolicy) (attempted : DbPolicy) (isUpdate : Bool)
    (err sentinel : StoreError) (q : DbPolicy → Bool)
    (rest : List (StoreError × (DbPolicy → Bool))) :
    probeChecks db attempted isUpdate err ((sentinel, q) :: rest) =
      if db.any (fun r => q r && (!isUpdate || r.id != attempted.id)) then sentinel
      else probeChecks db attempted isUpdate err rest := by
  simp only [probeChecks]
  cases hf : db.find? (fun r => q r && (!isUpdate || r.id != attempted.id)) with
  | some r =>
    have hmem := List.mem_of_find?_eq_some hf
    have hp := List.find?_some hf
    have hany : db.any (fun r => q r && (!isUpdate || r.id != attempted.id)) = true :=
      List.any_eq_true.mpr ⟨r, hmem, hp⟩
    simp [hany]
  | none =>
    have hall := List.find?_eq_none.mp hf
    have hany : db.any (fun r => q r && (!isUpdate || r.id != attempted.id)) = false :=
      List.any_eq_false.mpr (fun r hr => by simpa using hall r hr)
    simp [hany]

/-- A failed insert answers either the injected raw fault or the
duplicate-key mapping. -/
theorem storeCreate_error (db : List DbPolicy) (p : DbPolicy) (now : Nat) (e : StoreError)
    (h : storeCreate db p now false = .error e) :
    e = mapUniqueConstraintError db { p with createTime := now, updateTime := now } false
      (.driver true) := by
  unfold storeCreate at h
  simp only [Bool.false_eq_true, if_false] at h
  split at h
  · simp only [Except.error.injEq] at h
    exact h.symm
  · cases h

/-- A failed row update answers either not-found or the duplicate-key
mapping. -/
theorem storeUpdate_error (db : List DbPolicy) (p : DbPolicy) (now : Nat) (e : StoreError)
    (h : storeUpdate db p now = .error e) :
    e = .policyNotFound ∨ e = mapUniqueConstraintError db p true (.driver true) := by
  unfold storeUpdate at h
  cases hf : db.find? (fun r => r.id == p.id) <;> rw [hf] at h
  · simp only [Except.error.injEq] at h
    exact Or.inl h.symm
  · dsimp only at h
    split at h
    · simp only [Except.error.injEq] at h
      exact Or.inr h.symm
    · cases h

/-- Claim C6: on a detected duplicate-key error the store probes the
three uniqueness predicates in the fixed order id, then display_name
with policy_type, then priority with policy_type, with fresh reads,
excluding the row being updated on updates, and answers the first
matching sentinel or the raw error; `Create` and `Update` route their
duplicate-key failures through exactly this mapping. -/
theorem mapUniqueConstraintError_first_match (db : List DbPolicy) (attempted : DbPolicy)
    (isUpdate : Bool) (err : StoreError) (herr : err.isDuplicateKeyErr = true) :
    mapUniqueConstraintError db attempted isUpdate err =
      claimC6FirstMatch db attempted isUpdate err ∧
    (∀ p now e, storeCreate db p now false = .error e →
      e = claimC6FirstMatch db { p with createTime := now, updateTime := now } false
        (.driver true)) ∧
    (∀ p now e, storeUpdate db p now = .error e → e ≠ .policyNotFound →
      e = claimC6FirstMatch db p true (.driver true)) := by
  have key : ∀ (a : DbPolicy) (isU : Bool) (e : StoreError), e.isDuplicateKeyErr = true →
      mapUniqueConstraintError db a isU e = claimC6FirstMatch db a isU e := by
    intro a isU e he
    simp only [mapUniqueConstraintError, he, Bool.not_true, Bool.false_eq_true, if_false,
      uniqueChecks]
    rw [probeChecks_step, probeChecks_step, probeChecks_step]
    simp only [probeChecks, claimC6FirstMatch, Bool.and_assoc]
  refine ⟨key attempted isUpdate err herr, ?_, ?_⟩
  · intro p now e hc
    rw [storeCreate_error db p now e hc]
    exact key _ false (.driver true) rfl
  · intro p now e hu hnot
    rcases storeUpdate_error db p now e hu with h | h
    · exact absurd h hnot
    · rw [h]
      exact key _ true (.driver true) rfl

/-- Claim C6, witness: inserting a row that collides with the stored
row on display_name and policy_type (but not on id) maps the
duplicate-key error to the display-name sentinel. -/
theorem mapUniqueConstraintError_first_match_witness :
    (StoreError.driver true).isDuplicateKeyErr = true ∧
    mapUniqueConstraintError [fixRow1] fixAttempt false (.driver true) =
      claimC6FirstMatch [fixRow1] fixAttempt false (.driver true) ∧
    mapUniqueConstraintError [fixRow1] fixAttempt false (.driver true) =
      .displayNamePolicyTypeTaken :=
  ⟨rfl,
    (mapUniqueConstraintError_first_match [fixRow1] fixAttempt false (.driver true) rfl).1,
    rfl⟩

/-- Claim C7: a List call with page size N and a page token decoding to
offset k fetches N+1 rows at offset k from the filtered, ordered row
sequence; when more than N rows come back the first N are returned and
the next-page token encodes k + N, otherwise all fetched rows are
returned with an empty token; a non-positive page size falls back to
the default 50. -/
theorem listPolicies_pagination (db : List DbPolicy) (opts : PolicyListOptions)
    (tok : String) (N k : Nat) (hN : opts.pageSize = (N : Int)) (hNpos : 0 < N)
    (htok : opts.pageToken = some tok) (hne : tok ≠ "") (hdec : decodeTokenOffset tok = k) :
    ((listPolicies db (some opts)).policies =
      (if N < (((orderedRows db (some opts)).drop k).take (N + 1)).length
       then (((orderedRows db (some opts)).drop k).take (N + 1)).take N
       else ((orderedRows db (some opts)).drop k).take (N + 1)) ∧
     (listPolicies db (some opts)).nextPageToken =
      (if N < (((orderedRows db (some opts)).drop k).take (N + 1)).length
       then encodeTokenNat (k + N) else "")) ∧
    (∀ opts2 : PolicyListOptions, opts2.pageSize ≤ 0 →
      listPolicies db (some opts2) = listPolicies db (some { opts2 with pageSize := 50 })) := by
  constructor
  · have hps : (if 0 < opts.pageSize then opts.pageSize.toNat else 50) = N := by
      rw [hN]
      have h1 : (0 : Int) < (N : Int) := by exact_mod_cast hNpos
      simp [h1]
    have hoff :
        (match opts.pageToken with
         | some t => if t ≠ "" then decodeTokenOffset t else 0
         | none => 0) = k := by
      rw [htok]
      simp [hne, hdec]
    simp only [listPolicies, hps, hoff]
    split <;> exact ⟨rfl, rfl⟩
  · intro opts2 hle
    have h1 : ¬ (0 : Int) < opts2.pageSize := by omega
    simp only [listPolicies, orderedRows, h1, if_false]
    have h2 : (0 : Int) < (50 : Int) := by omega
    simp [h2]

/-- Claim C7, witness: three stored rows, page size 2, token encoding
offset 1 — the last two rows come back and the token is empty. -/
theorem listPolicies_pagination_witness :
    (listPolicies [fixRow1, fixRow2, fixRow3] (some fixListOpts)).policies =
      [fixRow2, fixRow3] ∧
    (listPolicies [fixRow1, fixRow2, fixRow3] (some fixListOpts)).nextPageToken = "" := by
  have h := listPolicies_pagination [fixRow1, fixRow2, fixRow3] fixListOpts
    (encodeTokenNat 1) 2 1 rfl (by decide) rfl (by decide) rfl
  exact ⟨h.1.1.trans (by decide), h.1.2.trans (by decide)⟩

/-- `MarkImmutable` updates exactly one path of both maps. -/
theorem markImmutable_effect (c : ConstraintContext) (fp pid q : String) :
    ((c.MarkImmutable fp pid).immutableFields q = ((q == fp) || c.immutableFields q)) ∧
    ((c.MarkImmutable fp pid).setBy q = if (q == fp) then pid else c.setBy q) := by
  simp only [ConstraintContext.MarkImmutable]
  by_cases hq : q = fp <;> simp [hq]

/-- `markImmutable_effect`, phrased through a one-element marked-path
list. -/
theorem markSingle_effect (c : ConstraintContext) (pid fp q : String) :
    ((c.MarkImmutable fp pid).immutableFields q =
      (([fp] : List String).contains q || c.immutableFields q)) ∧
    ((c.MarkImmutable fp pid).setBy q =
      if ([fp] : List String).contains q then pid else c.setBy q) := by
  have h := markImmutable_effect c fp pid q
  simpa using h

mutual

/-- The per-value marking pass marks exactly the paths `markedV`
computes, attributing all of them to the supplied policy id. -/
theorem markChangedV_effect : ∀ (v : J) (c : ConstraintContext) (pid fp : String)
    (ov : Option J) (q : String),
    ((markChangedV c pid fp ov v).immutableFields q =
      ((markedV fp ov v).contains q || c.immutableFields q)) ∧
    ((markChangedV c pid fp ov v).setBy q =
      if (markedV fp ov v).contains q then pid else c.setBy q)
  | .obj m2, c, pid, fp, ov, q => by
    cases ov with
    | none =>
      simp only [markChangedV, markedV]
      exact markSingle_effect c pid fp q
    | some w =>
      cases w with
      | obj m1 =>
        simpa only [markChangedV, markedV] using markChangedF_effect m2 c pid fp m1 q
      | null =>
        simp only [markChangedV, markedV]
        exact markSingle_effect c pid fp q
      | bool b =>
        simp only [markChangedV, markedV]
        exact markSingle_effect c pid fp q
      | num n =>
        simp only [markChangedV, markedV]
        exact markSingle_effect c pid fp q
      | str s =>
        simp only [markChangedV, markedV]
        exact markSingle_effect c pid fp q
      | arr xs =>
        simp only [markChangedV, markedV]
        exact markSingle_effect c pid fp q
  | .null, c, pid, fp, ov, q => by
    cases ov with
    | none =>
      simp only [markChangedV, markedV]
      exact markSingle_effect c pid fp q
    | some w =>
      simp only [markChangedV, markedV]
      by_cases he : valuesEqual (some w) (some .null) = true
      · simp [he]
      · simp only [Bool.not_eq_true] at he
        simp only [he, Bool.false_eq_true, if_false]
        exact markSingle_effect c pid fp q
  | .bool b, c, pid, fp, ov, q => by
    cases ov with
    | none =>
      simp only [markChangedV, markedV]
      exact markSingle_effect c pid fp q
    | some w =>
      simp only [markChangedV, markedV]
      by_cases he : valuesEqual (some w) (some (.bool b)) = true
      · simp [he]
      · simp only [Bool.not_eq_true] at he
        simp only [he, Bool.false_eq_true, if_false]
        exact markSingle_effect c pid fp q
  | .num n, c, pid, fp, ov, q => by
    cases ov with
    | none =>
      simp only [markChangedV, markedV]
      exact markSingle_effect c pid fp q
    | some w =>
      simp only [markChangedV, markedV]
      by_cases he : valuesEqual (some w) (some (.num n)) = true
      · simp [he]
      · simp only [Bool.not_eq_true] at he
        simp only [he, Bool.false_eq_true, if_false]
        exact markSingle_effect c pid fp q
  | .str s, c, pid, fp, ov, q => by
    cases ov with
    | none =>
      simp only [markChangedV, markedV]
      exact markSingle_effect c pid fp q
    | some w =>
      simp only [markChangedV, markedV]
      by_cases he : valuesEqual (some w) (some (.str s)) = true
      · simp [he]
      · simp only [Bool.not_eq_true] at he
        simp only [he, Bool.false_eq_true, if_false]
        exact markSingle_effect c pid fp q
  | .arr xs, c, pid, fp, ov, q => by
    cases ov with
    | none =>
      simp only [markChangedV, markedV]
      exact markSingle_effect c pid fp q
    | some w =>
      simp only [markChangedV, markedV]
      by_cases he : valuesEqual (some w) (some (.arr xs)) = true
      · simp [he]
      · simp only [Bool.not_eq_true] at he
        simp only [he, Bool.false_eq_true, if_false]
        exact markSingle_effect c pid fp q

/-- The field-loop marking pass marks exactly the paths `markedF`
computes. -/
theorem markChangedF_effect : ∀ (fs : JFields) (c : ConstraintContext) (pid pre : String)
    (orig : JFields) (q : String),
    ((markChangedF c pid pre orig fs).immutableFields q =
      ((markedF pre orig fs).contains q || c.immutableFields q)) ∧
    ((markChangedF c pid pre orig fs).setBy q =
      if (markedF pre orig fs).contains q then pid else c.setBy q)
  | .nil, c, pid, pre, orig, q => by simp [markChangedF, markedF]
  | .cons k v tl, c, pid, pre, orig, q => by
    have hV := markChangedV_effect v c pid (joinPath pre k) (orig.lookup k) q
    have hF := markChangedF_effect tl (markChangedV c pid (joinPath pre k) (orig.lookup k) v)
      pid pre orig q
    have happ : (markedF pre orig (.cons k v tl)).contains q
        = ((markedV (joinPath pre k) (orig.lookup k) v).contains q ||
           (markedF pre orig tl).contains q) := by
      simp [markedF, List.contains_eq_any_beq]
    simp only [markChangedF]
    rw [hF.1, hF.2, hV.1, hV.2, happ]
    cases h1 : (markedV (joinPath pre k) (orig.lookup k) v).contains q <;>
      cases h2 : (markedF pre orig tl).contains q <;> simp

end

/-- One operation marks exactly the paths `CtxOp.marks` recognises,
attributed to its policy id. -/
theorem applyCtxOp_effect (c : ConstraintContext) (op : CtxOp) (q : String) :
    ((applyCtxOp c op).immutableFields q = (op.marks q || c.immutableFields q)) ∧
    ((applyCtxOp c op).setBy q = if op.marks q then op.policyID else c.setBy q) := by
  cases op with
  | markOp p pid =>
    simpa only [applyCtxOp, CtxOp.marks, CtxOp.policyID] using markImmutable_effect c p pid q
  | markChangedOp b a pid =>
    simpa only [applyCtxOp, CtxOp.marks, CtxOp.policyID,
      ConstraintContext.MarkChangedFields] using markChangedF_effect a c pid "" b q

/-- Prepending one operation to the trace: the most recent marker is
the later one when it exists, otherwise the new head when it marks. -/
theorem lastMarker_cons (op : CtxOp) (ops : List CtxOp) (q : String) :
    lastMarker (op :: ops) q =
      match lastMarker ops q with
      | some pid => some pid
      | none => if op.marks q then some op.policyID else none := by
  unfold lastMarker
  rw [List.reverse_cons, List.find?_append]
  cases hf : List.find? (fun o => o.marks q) ops.reverse with
  | some o => simp [hf]
  | none =>
    simp only [Option.none_or, Option.map_none]
    cases ho : op.marks q <;> simp [List.find?, ho]

/-- Replaying a trace: the final maps read the most recent marker of
each path, falling back to the initial context. -/
theorem applyCtxOps_effect (ops : List CtxOp) (c : ConstraintContext) (q : String) :
    ((applyCtxOps c ops).immutableFields q =
      ((lastMarker ops q).isSome || c.immutableFields q)) ∧
    ((applyCtxOps c ops).setBy q =
      match lastMarker ops q with
      | some pid => pid
      | none => c.setBy q) := by
  induction ops generalizing c with
  | nil => simp [applyCtxOps, lastMarker]
  | cons op ops ih =>
    have hstep := applyCtxOp_effect c op q
    have hrec := ih (applyCtxOp c op)
    have hcons := lastMarker_cons op ops q
    constructor
    · show (applyCtxOps (applyCtxOp c op) ops).immutableFields q = _
      rw [hrec.1, hstep.1, hcons]
      cases hl : lastMarker ops q with
      | some pid => simp
      | none => cases ho : op.marks q <;> simp
    · show (applyCtxOps (applyCtxOp c op) ops).setBy q = _
      rw [hrec.2, hstep.2, hcons]
      cases hl : lastMarker ops q with
      | some pid => simp
      | none => cases ho : op.marks q <;> simp

/-- A recent marker comes from an operation of the trace. -/
theorem lastMarker_mem (ops : List CtxOp) (q : String) (pid : String)
    (h : lastMarker ops q = some pid) : ∃ op ∈ ops, op.policyID = pid := by
  unfold lastMarker at h
  cases hf : List.find? (fun o => o.marks q) ops.reverse with
  | none => rw [hf] at h; cases h
  | some o =>
    rw [hf] at h
    simp at h
    exact ⟨o, List.mem_reverse.mp (List.mem_of_find?_eq_some hf), h⟩

/-- Claim C9: after any sequence of `MarkImmutable` and
`MarkChangedFields` calls whose policy ids are all non-empty,
`IsImmutable p` holds exactly when `GetSetBy p` is non-empty, and
`GetSetBy p` is the id supplied by the most recent operation that
marked `p`. -/
theorem constraintContext_setBy_invariant (ops : List CtxOp) (p : String)
    (hids : ∀ op ∈ ops, op.policyID ≠ "") :
    ((applyCtxOps NewConstraintContext ops).IsImmutable p = true ↔
      (applyCtxOps NewConstraintContext ops).GetSetBy p ≠ "") ∧
    (applyCtxOps NewConstraintContext ops).GetSetBy p = (lastMarker ops p).getD "" := by
  have h := applyCtxOps_effect ops NewConstraintContext p
  have himm : (applyCtxOps NewConstraintContext ops).IsImmutable p =
      (lastMarker ops p).isSome := by
    rw [ConstraintContext.IsImmutable, h.1]
    simp [NewConstraintContext]
  have hset : (applyCtxOps NewConstraintContext ops).GetSetBy p =
      (lastMarker ops p).getD "" := by
    rw [ConstraintContext.GetSetBy, h.2]
    cases lastMarker ops p <;> simp [NewConstraintContext]
  refine ⟨?_, hset⟩
  rw [himm, hset]
  cases hl : lastMarker ops p with
  | none => simp
  | some pid =>
    rcases lastMarker_mem ops p pid hl with ⟨op, hmem, hpid⟩
    have hne : pid ≠ "" := hpid ▸ hids op hmem
    simp [hne]

/-- Claim C9, witness: on the two-operation trace the path `a` is
immutable, attributed to the most recent marker `p2`. -/
theorem constraintContext_setBy_invariant_witness :
    ((applyCtxOps NewConstraintContext fixCtxOps).IsImmutable "a" = true ↔
      (applyCtxOps NewConstraintContext fixCtxOps).GetSetBy "a" ≠ "") ∧
    (applyCtxOps NewConstraintContext fixCtxOps).GetSetBy "a" = "p2" ∧
    lastMarker fixCtxOps "a" = some "p2" := by
  have h := constraintContext_setBy_invariant fixCtxOps "a" (by decide)
  exact ⟨h.1, h.2.trans (by decide), by decide⟩

/-- A successful lookup means the key is present. -/
theorem lookup_some_mem_keys : ∀ (tl : JFields) (k : String) (w : J),
    tl.lookup k = some w → tl.keys.contains k = true
  | .nil, _, _, h => by cases h
  | .cons l v rest, k, w, h => by
    simp only [JFields.lookup] at h
    by_cases hk : k = l
    · simp [JFields.keys, hk]
    · simp only [hk, if_false] at h
      have hrec := lookup_some_mem_keys rest k w h
      simp only [List.contains_eq_any_beq] at hrec ⊢
      simp [JFields.keys, hrec]

/-- Membership in a conditional singleton. -/
theorem mem_ite_singleton (cnd : Bool) (fp p : String) :
    p ∈ (if cnd then [fp] else ([] : List String)) ↔ (cnd = true ∧ p = fp) := by
  cases cnd <;> simp

/-- Nothing is reported over an empty after-object. -/
theorem reported_nil (imm : String → Bool) (pre : String) (b1 : JFields) (p : String) :
    ¬ Reported imm pre b1 .nil p := by
  intro h
  cases h with
  | here _ _ _ k v hlook _ _ => cases hlook
  | nest _ _ _ k m1 m2 _ hlook _ _ => cases hlook

/-- Splitting the reported paths of a nonempty after-object into the
head entry's contributions and the tail's, given a head key that does
not recur in the tail. -/
theorem reported_cons_iff (imm : String → Bool) (pre : String) (b1 : JFields) (k : String)
    (v : J) (tl : JFields) (hk : tl.keys.contains k = false) (p : String) :
    Reported imm pre b1 (.cons k v tl) p ↔
      ((imm (joinPath pre k) = true ∧
          (valuesEqual (b1.lookup k) (some v) = false ∨
            (v.isObj = true ∧ ∃ w, b1.lookup k = some w ∧ w.isObj = false)) ∧
          p = joinPath pre k) ∨
       (∃ m2, v = .obj m2 ∧ ∃ m1, b1.lookup k = some (.obj m1) ∧
          Reported imm (joinPath pre k) m1 m2 p) ∨
       Reported imm pre b1 tl p) := by
  constructor
  · intro h
    cases h with
    | here _ _ _ k2 v2 hlook himm hdiff =>
      by_cases hk2 : k2 = k
      · subst hk2
        simp [JFields.lookup] at hlook
        subst hlook
        exact Or.inl ⟨himm, by simpa using hdiff, rfl⟩
      · simp only [JFields.lookup, if_neg hk2] at hlook
        exact Or.inr (Or.inr (Reported.here pre b1 tl k2 v2 hlook himm hdiff))
    | nest _ _ _ k2 m1 m2 _ hla hlb hrep =>
      by_cases hk2 : k2 = k
      · subst hk2
        simp [JFields.lookup] at hla
        exact Or.inr (Or.inl ⟨m2, hla, m1, hlb, hrep⟩)
      · simp only [JFields.lookup, if_neg hk2] at hla
        exact Or.inr (Or.inr (Reported.nest pre b1 tl k2 m1 m2 p hla hlb hrep))
  · intro h
    rcases h with ⟨himm, hdiff, hp⟩ | ⟨m2, hv, m1, hlb, hrep⟩ | htl
    · subst hp
      refine Reported.here pre b1 (.cons k v tl) k v ?_ himm (by simpa using hdiff)
      simp [JFields.lookup]
    · subst hv
      refine Reported.nest pre b1 (.cons (k := k) (v := .obj m2) tl) k m1 m2 p ?_ hlb hrep
      simp [JFields.lookup]
    · cases htl with
      | here _ _ _ k2 v2 hlook himm hdiff =>
        have hmem := lookup_some_mem_keys tl k2 v2 hlook
        have hk2 : k2 ≠ k := by
          intro hEq
          rw [hEq] at hmem
          rw [hmem] at hk
          cases hk
        refine Reported.here pre b1 (.cons k v tl) k2 v2 ?_ himm hdiff
        simp [JFields.lookup, hk2, hlook]
      | nest _ _ _ k2 m1 m2 _ hla hlb hrep =>
        have hmem := lookup_some_mem_keys tl k2 (.obj m2) hla
        have hk2 : k2 ≠ k := by
          intro hEq
          rw [hEq] at hmem
          rw [hmem] at hk
          cases hk
        refine Reported.nest pre b1 (.cons k v tl) k2 m1 m2 p ?_ hlb hrep
        simp [JFields.lookup, hk2, hla]

/-- Membership in the top-check conditional singleton. -/
theorem mem_top_ite (c1 eqv : Bool) (fp p : String) :
    p ∈ (if c1 && !eqv then [fp] else ([] : List String)) ↔
      (c1 = true ∧ eqv = false ∧ p = fp) := by
  cases c1 <;> cases eqv <;> simp

mutual

/-- Membership in the per-value part of the traversal: a nested
recursion when both sides are objects, a single report when the after
value is an object replacing a present non-object. -/
theorem checkViolV_mem_iff : ∀ (v : J) (imm : String → Bool) (fp : String) (ov : Option J)
    (p : String), v.wfB = true →
    (p ∈ checkViolV imm fp ov v ↔
      ((∃ m2, v = .obj m2 ∧ ∃ m1, ov = some (.obj m1) ∧
          Reported imm fp m1 m2 p) ∨
       (v.isObj = true ∧ imm fp = true ∧ p = fp ∧
          ∃ w, ov = some w ∧ w.isObj = false)))
  | .obj m2, imm, fp, ov, p, hwf => by
    have hdup : noDupKeysB m2 = true := by
      simp only [J.wfB, Bool.and_eq_true] at hwf
      exact hwf.1
    have hwfF : JFields.wfB m2 = true := by
      simp only [J.wfB, Bool.and_eq_true] at hwf
      exact hwf.2
    cases ov with
    | none => simp [checkViolV]
    | some w =>
      cases w with
      | obj m1 =>
        have hrec := checkViolF_mem_iff m2 imm fp m1 p hdup hwfF
        simp only [checkViolV]
        rw [hrec]
        simp [J.isObj]
      | null =>
        simp only [checkViolV]
        rw [mem_ite_singleton]
        simp [J.isObj, and_assoc]
      | bool b =>
        simp only [checkViolV]
        rw [mem_ite_singleton]
        simp [J.isObj, and_assoc]
      | num n =>
        simp only [checkViolV]
        rw [mem_ite_singleton]
        simp [J.isObj, and_assoc]
      | str s =>
        simp only [checkViolV]
        rw [mem_ite_singleton]
        simp [J.isObj, and_assoc]
      | arr xs =>
        simp only [checkViolV]
        rw [mem_ite_singleton]
        simp [J.isObj, and_assoc]
  | .null, imm, fp, ov, p, _ => by simp [checkViolV, J.isObj]
  | .bool b, imm, fp, ov, p, _ => by simp [checkViolV, J.isObj]
  | .num n, imm, fp, ov, p, _ => by simp [checkViolV, J.isObj]
  | .str s, imm, fp, ov, p, _ => by simp [checkViolV, J.isObj]
  | .arr xs, imm, fp, ov, p, _ => by simp [checkViolV, J.isObj]

/-- Membership in the field loop: exactly the `Reported` relation. -/
theorem checkViolF_mem_iff : ∀ (a1 : JFields) (imm : String → Bool) (pre : String)
    (b1 : JFields) (p : String), noDupKeysB a1 = true → JFields.wfB a1 = true →
    (p ∈ checkViolF imm pre b1 a1 ↔ Reported imm pre b1 a1 p)
  | .nil, imm, pre, b1, p, _, _ => by
    simp only [checkViolF, List.not_mem_nil, false_iff]
    exact reported_nil imm pre b1 p
  | .cons k v tl, imm, pre, b1, p, hdup, hwfF => by
    have hkfresh : tl.keys.contains k = false := by
      simp only [noDupKeysB, Bool.and_eq_true, Bool.not_eq_true'] at hdup
      exact hdup.1
    have hdupt : noDupKeysB tl = true := by
      simp only [noDupKeysB, Bool.and_eq_true] at hdup
      exact hdup.2
    have hwfv : v.wfB = true := by
      simp only [JFields.wfB, Bool.and_eq_true] at hwfF
      exact hwfF.1
    have hwft : JFields.wfB tl = true := by
      simp only [JFields.wfB, Bool.and_eq_true] at hwfF
      exact hwfF.2
    have hV := checkViolV_mem_iff v imm (joinPath pre k) (b1.lookup k) p hwfv
    have hT := checkViolF_mem_iff tl imm pre b1 p hdupt hwft
    rw [reported_cons_iff imm pre b1 k v tl hkfresh p]
    simp only [checkViolF, List.mem_append, mem_top_ite]
    rw [hV, hT]
    constructor
    · rintro ((⟨h1, h2, h3⟩ | hv) | ht)
      · exact Or.inl ⟨h1, Or.inl h2, h3⟩
      · rcases hv with ⟨m2, hm2, m1, hm1, hrep⟩ | ⟨hobj, himm, hp, w, hw, hwo⟩
        · exact Or.inr (Or.inl ⟨m2, hm2, m1, hm1, hrep⟩)
        · exact Or.inl ⟨himm, Or.inr ⟨hobj, w, hw, hwo⟩, hp⟩
      · exact Or.inr (Or.inr ht)
    · rintro (⟨h1, h2 | ⟨hobj, w, hw, hwo⟩, h3⟩ | ⟨m2, hm2, m1, hm1, hrep⟩ | ht)
      · exact Or.inl (Or.inl ⟨h1, h2, h3⟩)
      · exact Or.inl (Or.inr (Or.inr ⟨hobj, h1, h3, w, hw, hwo⟩))
      · exact Or.inl (Or.inr (Or.inl ⟨m2, hm2, m1, hm1, hrep⟩))
      · exact Or.inr ht

end

/-- Claim C4 (amended): `CheckViolations` reports exactly the paths the
`Reported` relation describes — over the keys present in `after` only,
descending through keys whose values are objects on both sides
regardless of whether the parent path is frozen, reporting a frozen
path when its value differs under Go stringified comparison or when its
after value is an object replacing a present non-object; keys removed
in `after` are never reported, and children of a frozen object are
still traversed and may be reported alongside the parent. -/
theorem checkViolations_reported (c : ConstraintContext) (before after : JFields)
    (p : String) (hwf : (J.obj after).wfB = true) :
    p ∈ c.CheckViolations before after ↔ Reported c.immutableFields "" before after p := by
  simp only [J.wfB, Bool.and_eq_true] at hwf
  exact checkViolF_mem_iff after c.immutableFields "" before p hwf.1 hwf.2

/-- Claim C4, counterexample: path `a` is frozen, `before` holds
`a: "x"` and `after` removes it — under the claim the path is in the
frozen set, its value changed, and no proper parent is frozen, so it
must be reported, but the traversal only visits keys of `after` and
returns nothing. -/
theorem checkViolations_claim_counterexample :
    claimC4Paths (fun q => q == "a") (.cons "a" (.str "x") .nil) .nil ["a"] ∧
    ConstraintContext.CheckViolations
      { immutableFields := fun q => q == "a", setBy := fun _ => "" }
      (.cons "a" (.str "x") .nil) .nil = [] := by
  constructor
  · refine ⟨by simp, by decide, ?_, ?_⟩
    · simp [resolveFields, JFields.lookup, dottedPath]
    · intro pre h1 h2 h3
      exfalso
      rcases h3 with ⟨suf, hsuf⟩
      cases pre with
      | nil => exact h1 rfl
      | cons x xs =>
        cases xs with
        | nil =>
          simp at hsuf
          exact h2 (by simp [hsuf.1, hsuf.2])
        | cons y ys => simp at hsuf
  · rfl

/-- Claim C4, witness: with path `a` frozen and its value changed from
`"x"` to `"y"`, the characterisation applies and both sides hold. -/
theorem checkViolations_reported_witness :
    (J.obj (.cons "a" (.str "y") .nil)).wfB = true ∧
    ("a" ∈ ConstraintContext.CheckViolations
        { immutableFields := fun q => q == "a", setBy := fun _ => "" }
        (.cons "a" (.str "x") .nil) (.cons "a" (.str "y") .nil) ↔
      Reported (fun q => q == "a") "" (.cons "a" (.str "x") .nil)
        (.cons "a" (.str "y") .nil) "a") :=
  ⟨rfl,
    checkViolations_reported
      { immutableFields := fun q => q == "a", setBy := fun _ => "" }
      (.cons "a" (.str "x") .nil) (.cons "a" (.str "y") .nil) "a" rfl⟩

/-! ### Order lemmas for the key sort (toward the canonical-equality
characterisation of `mapsEqual`) -/

theorem charsLe_total : ∀ (a b : List Char), charsLe a b = true ∨ charsLe b a = true
  | [], _ => Or.inl rfl
  | _ :: _, [] => Or.inr rfl
  | a :: as2, b :: bs => by
    by_cases h1 : a.toNat < b.toNat
    · exact Or.inl (by simp [charsLe, h1])
    · by_cases h2 : b.toNat < a.toNat
      · exact Or.inr (by simp [charsLe, h2, h1])
      · rcases charsLe_total as2 bs with h | h
        · exact Or.inl (by simp [charsLe, h1, h2, h])
        · exact Or.inr (by simp [charsLe, h1, h2, h])

theorem charsLe_antisymm : ∀ (a b : List Char),
    charsLe a b = true → charsLe b a = true → a = b
  | [], [], _, _ => rfl
  | [], _ :: _, _, h2 => by cases h2
  | _ :: _, [], h1, _ => by cases h1
  | a :: as2, b :: bs, h1, h2 => by
    simp only [charsLe] at h1 h2
    by_cases hab : a.toNat < b.toNat
    · simp only [hab, if_true] at h1
      have : ¬ b.toNat < a.toNat := by omega
      simp [hab, this] at h2
    · by_cases hba : b.toNat < a.toNat
      · simp [hab, hba] at h1
      · simp only [hab, hba, if_false] at h1 h2
        have heq : a = b := by
          have h3 : a.toNat = b.toNat := by omega
          exact Char.ext (UInt32.ext h3)
        rw [heq, charsLe_antisymm as2 bs h1 h2]

theorem charsLe_refl : ∀ (a : List Char), charsLe a a = true
  | [] => rfl
  | c :: cs => by simp [charsLe, charsLe_refl cs]

theorem strLe_refl (s : String) : strLe s s = true :=
  charsLe_refl s.data

theorem strLe_total (s t : String) : strLe s t = true ∨ strLe t s = true :=
  charsLe_total s.data t.data

theorem strLe_antisymm (s t : String) (h1 : strLe s t = true) (h2 : strLe t s = true) :
    s = t := by
  cases s with
  | mk d1 =>
    cases t with
    | mk d2 =>
      have := charsLe_antisymm d1 d2 h1 h2
      rw [this]

theorem charsLe_trans : ∀ (a b c : List Char),
    charsLe a b = true → charsLe b c = true → charsLe a c = true
  | [], _, _, _, _ => rfl
  | _ :: _, [], _, h1, _ => by cases h1
  | _ :: _, _ :: _, [], _, h2 => by cases h2
  | a :: as2, b :: bs, c :: cs, h1, h2 => by
    simp only [charsLe] at h1 h2 ⊢
    by_cases hac : a.toNat < c.toNat
    · simp [hac]
    · by_cases hab : a.toNat < b.toNat
      · by_cases hbc : b.toNat < c.toNat
        · omega
        · by_cases hcb : c.toNat < b.toNat
          · simp [hbc, hcb] at h2
          · omega
      · by_cases hba : b.toNat < a.toNat
        · simp [hab, hba] at h1
        · simp only [hab, hba, if_false] at h1
          by_cases hbc : b.toNat < c.toNat
          · omega
          · by_cases hcb : c.toNat < b.toNat
            · simp [hbc, hcb] at h2
            · simp only [hbc, hcb, if_false] at h2
              have hca : ¬ c.toNat < a.toNat := by omega
              simp only [hac, hca, if_false]
              exact charsLe_trans as2 bs cs h1 h2

theorem strLe_trans (s t u : String) (h1 : strLe s t = true) (h2 : strLe t u = true) :
    strLe s u = true :=
  charsLe_trans s.data t.data u.data h1 h2

mutual

/-- The structural equality test decides equality. -/
theorem J.beq_iff_eq : ∀ (x y : J), (J.beq x y = true ↔ x = y)
  | .null, y => by cases y <;> simp [J.beq]
  | .bool b, y => by cases y <;> simp [J.beq]
  | .num n, y => by cases y <;> simp [J.beq]
  | .str s, y => by cases y <;> simp [J.beq]
  | .arr xs, .arr ys => by
    rw [show J.beq (.arr xs) (.arr ys) = JArr.beq xs ys from rfl]
    rw [JArr.beq_iff_eq_arr xs ys]
    simp
  | .arr xs, .null => by simp [J.beq]
  | .arr xs, .bool b => by simp [J.beq]
  | .arr xs, .num n => by simp [J.beq]
  | .arr xs, .str s => by simp [J.beq]
  | .arr xs, .obj b => by simp [J.beq]
  | .obj a, .obj b => by
    rw [show J.beq (.obj a) (.obj b) = JFields.beq a b from rfl]
    rw [JFields.beq_iff_eq_fields a b]
    simp
  | .obj a, .null => by simp [J.beq]
  | .obj a, .bool b => by simp [J.beq]
  | .obj a, .num n => by simp [J.beq]
  | .obj a, .str s => by simp [J.beq]
  | .obj a, .arr ys => by simp [J.beq]

theorem JArr.beq_iff_eq_arr : ∀ (xs ys : JArr), (JArr.beq xs ys = true ↔ xs = ys)
  | .nil, .nil => by simp [JArr.beq]
  | .nil, .cons y ys => by simp [JArr.beq]
  | .cons x xs, .nil => by simp [JArr.beq]
  | .cons x xs, .cons y ys => by
    simp only [JArr.beq, Bool.and_eq_true, J.beq_iff_eq x y, JArr.beq_iff_eq_arr xs ys]
    simp

theorem JFields.beq_iff_eq_fields : ∀ (a b : JFields), (JFields.beq a b = true ↔ a = b)
  | .nil, .nil => by simp [JFields.beq]
  | .nil, .cons l w tl => by simp [JFields.beq]
  | .cons k v tl, .nil => by simp [JFields.beq]
  | .cons k v tl, .cons l w tl2 => by
    simp only [JFields.beq, Bool.and_eq_true, J.beq_iff_eq v w, JFields.beq_iff_eq_fields tl tl2,
      beq_iff_eq]
    simp [and_assoc]

end

theorem lookup_insertField (k m : String) (v : J) : ∀ (fs : JFields),
    (insertField k v fs).lookup m = if m = k then some v else fs.lookup m
  | .nil => by simp [insertField, JFields.lookup]
  | .cons l w tl => by
    simp only [insertField]
    by_cases hsl : strLe k l = true
    · simp [hsl, JFields.lookup]
    · simp only [hsl, if_false]
      have hkl : l ≠ k := by
        intro hc
        rw [hc] at hsl
        exact hsl (strLe_refl k)
      simp only [JFields.lookup, lookup_insertField k m v tl]
      by_cases hml : m = l
      · have hmk : ¬ m = k := by
          rw [hml]
          exact hkl
        simp [hml, hmk, hkl]
      · simp [hml]

theorem lookup_sortFields : ∀ (fs : JFields) (m : String),
    (sortFields fs).lookup m = fs.lookup m
  | .nil, m => rfl
  | .cons k v tl, m => by
    simp only [sortFields, lookup_insertField, lookup_sortFields tl m, JFields.lookup]

theorem lookup_canonFields : ∀ (fs : JFields) (m : String),
    (JFields.canon fs).lookup m = (fs.lookup m).map J.canon
  | .nil, m => rfl
  | .cons k v tl, m => by
    simp only [JFields.canon, JFields.lookup, lookup_canonFields tl m]
    by_cases hm : m = k <;> simp [hm]

theorem keys_canonFields : ∀ (fs : JFields), (JFields.canon fs).keys = fs.keys
  | .nil => rfl
  | .cons k v tl => by simp [JFields.canon, JFields.keys, keys_canonFields tl]

theorem contains_insertField (k q : String) (v : J) : ∀ (fs : JFields),
    (insertField k v fs).keys.contains q = (q == k || fs.keys.contains q)
  | .nil => by
    simp only [insertField, JFields.keys, List.contains_cons]
  | .cons l w tl => by
    simp only [insertField]
    by_cases hsl : strLe k l = true
    · simp only [hsl, if_true, JFields.keys, List.contains_cons]
    · simp only [hsl, if_false, JFields.keys, List.contains_cons,
        contains_insertField k q v tl]
      cases hq : q == l <;> cases hk : q == k <;> simp

theorem contains_sortFields : ∀ (fs : JFields) (q : String),
    (sortFields fs).keys.contains q = fs.keys.contains q
  | .nil, q => rfl
  | .cons k v tl, q => by
    simp only [sortFields, contains_insertField, contains_sortFields tl q,
      JFields.keys, List.contains_cons]

/-- String beq is symmetric in its falsehood. -/
theorem beq_false_symm (a b : String) (h : (a == b) = false) : (b == a) = false := by
  cases hba : b == a
  · rfl
  · rw [beq_iff_eq.mp hba] at h
    rw [beq_self_eq_true] at h
    cases h

theorem noDup_insertField (k : String) (v : J) : ∀ (fs : JFields),
    fs.keys.contains k = false → noDupKeysB fs = true →
    noDupKeysB (insertField k v fs) = true
  | .nil, _, _ => rfl
  | .cons l w tl, hfree, hdup => by
    simp only [JFields.keys, List.contains_cons, Bool.or_eq_false_iff] at hfree
    simp only [noDupKeysB, Bool.and_eq_true, Bool.not_eq_true'] at hdup
    simp only [insertField]
    by_cases hsl : strLe k l = true
    · simp only [hsl, if_true, noDupKeysB, JFields.keys, List.contains_cons,
        Bool.and_eq_true, Bool.not_eq_true', Bool.or_eq_false_iff]
      exact ⟨⟨hfree.1, hfree.2⟩, hdup.1, hdup.2⟩
    · simp only [hsl, if_false, noDupKeysB, Bool.and_eq_true, Bool.not_eq_true']
      refine ⟨?_, noDup_insertField k v tl hfree.2 hdup.2⟩
      rw [contains_insertField]
      simp only [Bool.or_eq_false_iff]
      exact ⟨beq_false_symm k l hfree.1, hdup.1⟩

theorem noDup_sortFields : ∀ (fs : JFields),
    noDupKeysB fs = true → noDupKeysB (sortFields fs) = true
  | .nil, _ => rfl
  | .cons k v tl, hdup => by
    simp only [noDupKeysB, Bool.and_eq_true, Bool.not_eq_true'] at hdup
    simp only [sortFields]
    refine noDup_insertField k v (sortFields tl) ?_ (noDup_sortFields tl hdup.2)
    rw [contains_sortFields]
    exact hdup.1

theorem noDup_canonFields : ∀ (fs : JFields),
    noDupKeysB fs = true → noDupKeysB (JFields.canon fs) = true
  | .nil, _ => rfl
  | .cons k v tl, hdup => by
    simp only [noDupKeysB, Bool.and_eq_true, Bool.not_eq_true'] at hdup
    simp only [JFields.canon, noDupKeysB, Bool.and_eq_true, Bool.not_eq_true',
      keys_canonFields]
    exact ⟨hdup.1, noDup_canonFields tl hdup.2⟩

theorem lookup_none_of_not_contains : ∀ (fs : JFields) (q : String),
    fs.keys.contains q = false → fs.lookup q = none
  | .nil, q, _ => rfl
  | .cons l w tl, q, h => by
    simp only [JFields.keys, List.contains_cons, Bool.or_eq_false_iff] at h
    simp only [JFields.lookup]
    have hq : ¬ q = l := by
      intro hc
      rw [hc] at h
      simp at h
    simp [hq, lookup_none_of_not_contains tl q h.2]

theorem fieldsSorted_insertField (k : String) (v : J) : ∀ (fs : JFields),
    fieldsSorted fs → fieldsSorted (insertField k v fs)
  | .nil, _ => by simp [insertField, fieldsSorted]
  | .cons l w tl, hs => by
    simp only [fieldsSorted] at hs
    simp only [insertField]
    by_cases hsl : strLe k l = true
    · simp only [hsl, if_true]
      refine ⟨hsl, ?_⟩
      simpa only [fieldsSorted] using hs
    · have hlk : strLe l k = true := (strLe_total k l).resolve_left hsl
      simp only [hsl, if_false]
      have hrec := fieldsSorted_insertField k v tl hs.2
      cases tl with
      | nil =>
        simp only [insertField, fieldsSorted]
        exact ⟨hlk, trivial, trivial⟩
      | cons m u tl2 =>
        simp only [insertField] at hrec ⊢
        by_cases hkm : strLe k m = true
        · simp only [hkm, if_true, fieldsSorted] at hrec ⊢
          exact ⟨hlk, hrec⟩
        · simp only [hkm, if_false, fieldsSorted] at hrec ⊢
          exact ⟨hs.1, hrec⟩

theorem fieldsSorted_sortFields : ∀ (fs : JFields), fieldsSorted (sortFields fs)
  | .nil => by simp [sortFields, fieldsSorted]
  | .cons k v tl => by
    simp only [sortFields]
    exact fieldsSorted_insertField k v (sortFields tl) (fieldsSorted_sortFields tl)

theorem sorted_head_le : ∀ (tl : JFields) (k : String) (v : J),
    fieldsSorted (.cons k v tl) → ∀ q, tl.keys.contains q = true → strLe k q = true
  | .nil, k, v, _, q, hq => by cases hq
  | .cons l w tl2, k, v, hs, q, hq => by
    simp only [fieldsSorted] at hs
    simp only [JFields.keys, List.contains_cons, Bool.or_eq_true] at hq
    rcases hq with hq | hq
    · rw [beq_iff_eq.mp hq]
      exact hs.1
    · exact strLe_trans k l q hs.1 (sorted_head_le tl2 l w hs.2 q hq)

/-- Two sorted, duplicate-free field lists with the same lookups are
equal. -/
theorem sorted_nodup_lookup_ext : ∀ (fs gs : JFields),
    fieldsSorted fs → fieldsSorted gs → noDupKeysB fs = true → noDupKeysB gs = true →
    (∀ m, fs.lookup m = gs.lookup m) → fs = gs
  | .nil, .nil, _, _, _, _, _ => rfl
  | .nil, .cons l w tl2, _, _, _, _, h => by
    have := h l
    simp [JFields.lookup] at this
  | .cons k v tl, .nil, _, _, _, _, h => by
    have := h k
    simp [JFields.lookup] at this
  | .cons k v tl, .cons l w tl2, hs1, hs2, hd1, hd2, h => by
    have hlek : strLe l k = true := by
      by_cases hkl : k = l
      · rw [hkl]
        exact strLe_refl l
      · have hk := h k
        rw [show (JFields.cons k v tl).lookup k = some v by simp [JFields.lookup]] at hk
        rw [show (JFields.cons l w tl2).lookup k = tl2.lookup k by
          simp [JFields.lookup, hkl]] at hk
        exact sorted_head_le tl2 l w hs2 k (lookup_some_mem_keys tl2 k v hk.symm)
    have hkel : strLe k l = true := by
      by_cases hkl : l = k
      · rw [hkl]
        exact strLe_refl k
      · have hl := h l
        rw [show (JFields.cons l w tl2).lookup l = some w by simp [JFields.lookup]] at hl
        rw [show (JFields.cons k v tl).lookup l = tl.lookup l by
          simp [JFields.lookup, hkl]] at hl
        exact sorted_head_le tl k v hs1 l (lookup_some_mem_keys tl l w hl)
    have hkl : k = l := strLe_antisymm k l hkel hlek
    subst hkl
    have hvw : v = w := by
      have hk := h k
      simp [JFields.lookup] at hk
      exact hk
    subst hvw
    simp only [noDupKeysB, Bool.and_eq_true, Bool.not_eq_true'] at hd1 hd2
    simp only [fieldsSorted] at hs1 hs2
    have htl : tl = tl2 := by
      refine sorted_nodup_lookup_ext tl tl2 hs1.2 hs2.2 hd1.2 hd2.2 ?_
      intro m
      by_cases hm : m = k
      · rw [hm, lookup_none_of_not_contains tl k hd1.1,
          lookup_none_of_not_contains tl2 k hd2.1]
      · have := h m
        simpa [JFields.lookup, hm] using this
    rw [htl]

theorem wfF_lookup : ∀ (b : JFields) (k : String) (w : J),
    JFields.wfB b = true → b.lookup k = some w → w.wfB = true
  | .nil, _, _, _, h => by cases h
  | .cons l v tl, k, w, hwf, h => by
    simp only [JFields.wfB, Bool.and_eq_true] at hwf
    simp only [JFields.lookup] at h
    by_cases hk : k = l
    · simp only [hk, if_true, Option.some.injEq] at h
      rw [← h]
      exact hwf.1
    · simp only [hk, if_false] at h
      exact wfF_lookup tl k w hwf.2 h

theorem keysIncl_iff : ∀ (b a : JFields),
    (keysIncl b a = true ↔ ∀ k w, b.lookup k = some w → (a.lookup k).isSome = true)
  | .nil, a => by
    constructor
    · intro _ k w h
      cases h
    · intro _
      rfl
  | .cons l v tl, a => by
    simp only [keysIncl, Bool.and_eq_true]
    constructor
    · rintro ⟨h1, h2⟩ k w hk
      simp only [JFields.lookup] at hk
      by_cases hkl : k = l
      · rw [hkl]
        exact h1
      · simp only [hkl, if_false] at hk
        exact (keysIncl_iff tl a).mp h2 k w hk
    · intro hall
      refine ⟨hall l v (by simp [JFields.lookup]), (keysIncl_iff tl a).mpr ?_⟩
      intro k w hk
      by_cases hkl : k = l
      · subst hkl
        exact hall k v (by simp [JFields.lookup])
      · exact hall k w (by simp [JFields.lookup, hkl, hk])

mutual

/-- Canonical forms are equal exactly when the documents are
order-independently equal (the specification notion of canonical JSON
equality), on well-formed documents. -/
theorem canon_eq_iff_jeqv : ∀ (x y : J), x.wfB = true → y.wfB = true →
    (J.canon x = J.canon y ↔ J.jeqv x y = true)
  | .null, y, _, _ => by cases y <;> simp [J.canon, J.jeqv]
  | .bool b, y, _, _ => by cases y <;> simp [J.canon, J.jeqv]
  | .num n, y, _, _ => by cases y <;> simp [J.canon, J.jeqv]
  | .str s, y, _, _ => by cases y <;> simp [J.canon, J.jeqv]
  | .arr xs, .null, _, _ => by simp [J.canon, J.jeqv]
  | .arr xs, .bool b, _, _ => by simp [J.canon, J.jeqv]
  | .arr xs, .num n, _, _ => by simp [J.canon, J.jeqv]
  | .arr xs, .str s, _, _ => by simp [J.canon, J.jeqv]
  | .arr xs, .obj b, _, _ => by simp [J.canon, J.jeqv]
  | .obj a, .null, _, _ => by simp [J.canon, J.jeqv]
  | .obj a, .bool b, _, _ => by simp [J.canon, J.jeqv]
  | .obj a, .num n, _, _ => by simp [J.canon, J.jeqv]
  | .obj a, .str s, _, _ => by simp [J.canon, J.jeqv]
  | .obj a, .arr ys, _, _ => by simp [J.canon, J.jeqv]
  | .arr xs, .arr ys, hx, hy => by
    rw [show J.canon (.arr xs) = .arr (JArr.canon xs) from rfl,
      show J.canon (.arr ys) = .arr (JArr.canon ys) from rfl,
      show J.jeqv (.arr xs) (.arr ys) = JArr.jeqv xs ys from rfl]
    rw [← canonArr_eq_iff xs ys (by simpa [J.wfB] using hx) (by simpa [J.wfB] using hy)]
    simp
  | .obj a, .obj b, hx, hy => by
    have hnda : noDupKeysB a = true := by
      simp only [J.wfB, Bool.and_eq_true] at hx
      exact hx.1
    have hwfa : JFields.wfB a = true := by
      simp only [J.wfB, Bool.and_eq_true] at hx
      exact hx.2
    have hndb : noDupKeysB b = true := by
      simp only [J.wfB, Bool.and_eq_true] at hy
      exact hy.1
    have hwfb : JFields.wfB b = true := by
      simp only [J.wfB, Bool.and_eq_true] at hy
      exact hy.2
    rw [show J.canon (.obj a) = .obj (sortFields (JFields.canon a)) from rfl,
      show J.canon (.obj b) = .obj (sortFields (JFields.canon b)) from rfl,
      show J.jeqv (.obj a) (.obj b) = (JFields.pointwise a b && keysIncl b a) from rfl]
    rw [Bool.and_eq_true]
    constructor
    · intro hc
      have hs : sortFields (JFields.canon a) = sortFields (JFields.canon b) := by
        injection hc
      have hlook : ∀ m, (a.lookup m).map J.canon = (b.lookup m).map J.canon := by
        intro m
        have hcg := congrArg (fun fs => JFields.lookup fs m) hs
        simpa only [lookup_sortFields, lookup_canonFields] using hcg
      constructor
      · refine (pointwise_iff_canonMatch a b hnda hwfa hwfb).mpr ?_
        intro k v hk
        have hm := hlook k
        rw [hk] at hm
        cases hb : b.lookup k with
        | none =>
          rw [hb] at hm
          cases hm
        | some w =>
          rw [hb] at hm
          simp only [Option.map_some', Option.some.injEq] at hm
          exact ⟨w, rfl, hm⟩
      · rw [keysIncl_iff]
        intro k w hk
        have hm := hlook k
        rw [hk] at hm
        cases ha : a.lookup k with
        | none =>
          rw [ha] at hm
          cases hm
        | some v => simp [ha]
    · rintro ⟨hpw, hincl⟩
      have hmatch := (pointwise_iff_canonMatch a b hnda hwfa hwfb).mp hpw
      have hinc2 := (keysIncl_iff b a).mp hincl
      have hlook : ∀ m, (a.lookup m).map J.canon = (b.lookup m).map J.canon := by
        intro m
        cases ha : a.lookup m with
        | some v =>
          obtain ⟨w, hb, hcw⟩ := hmatch m v ha
          rw [hb]
          simp [hcw]
        | none =>
          cases hb : b.lookup m with
          | none => rfl
          | some w =>
            have := hinc2 m w hb
            rw [ha] at this
            cases this
      have hfs : sortFields (JFields.canon a) = sortFields (JFields.canon b) := by
        refine sorted_nodup_lookup_ext _ _ (fieldsSorted_sortFields _)
          (fieldsSorted_sortFields _) (noDup_sortFields _ (noDup_canonFields a hnda))
          (noDup_sortFields _ (noDup_canonFields b hndb)) ?_
        intro m
        rw [lookup_sortFields, lookup_sortFields, lookup_canonFields, lookup_canonFields]
        exact hlook m
      rw [hfs]

theorem canonArr_eq_iff : ∀ (xs ys : JArr), JArr.wfB xs = true → JArr.wfB ys = true →
    (JArr.canon xs = JArr.canon ys ↔ JArr.jeqv xs ys = true)
  | .nil, .nil, _, _ => by simp [JArr.canon, JArr.jeqv]
  | .nil, .cons y ys, _, _ => by simp [JArr.canon, JArr.jeqv]
  | .cons x xs, .nil, _, _ => by simp [JArr.canon, JArr.jeqv]
  | .cons x xs, .cons y ys, hx, hy => by
    simp only [JArr.wfB, Bool.and_eq_true] at hx hy
    rw [show JArr.canon (.cons x xs) = .cons x.canon (JArr.canon xs) from rfl,
      show JArr.canon (.cons y ys) = .cons y.canon (JArr.canon ys) from rfl,
      show JArr.jeqv (.cons x xs) (.cons y ys) = (J.jeqv x y && JArr.jeqv xs ys) from rfl]
    rw [Bool.and_eq_true, ← canon_eq_iff_jeqv x y hx.1 hy.1,
      ← canonArr_eq_iff xs ys hx.2 hy.2]
    simp

/-- The pointwise test of `jeqv`, characterised through canonical
equality of the values looked up in the second object. -/
theorem pointwise_iff_canonMatch : ∀ (a b : JFields), noDupKeysB a = true →
    JFields.wfB a = true → JFields.wfB b = true →
    (JFields.pointwise a b = true ↔
      ∀ k v, a.lookup k = some v → ∃ w, b.lookup k = some w ∧ J.canon v = J.canon w)
  | .nil, b, _, _, _ => by
    constructor
    · intro _ k v h
      cases h
    · intro _
      rfl
  | .cons k v tl, b, hnd, hwa, hwb => by
    simp only [noDupKeysB, Bool.and_eq_true, Bool.not_eq_true'] at hnd
    simp only [JFields.wfB, Bool.and_eq_true] at hwa
    rw [show JFields.pointwise (.cons k v tl) b =
      ((match b.lookup k with
        | some w => J.jeqv v w
        | none => false) && JFields.pointwise tl b) from rfl]
    rw [Bool.and_eq_true]
    constructor
    · rintro ⟨h1, h2⟩ m u hm
      simp only [JFields.lookup] at hm
      by_cases hmk : m = k
      · subst hmk
        rw [if_pos rfl] at hm
        injection hm with hm
        subst hm
        cases hb : b.lookup m with
        | none =>
          rw [hb] at h1
          cases h1
        | some w =>
          rw [hb] at h1
          exact ⟨w, rfl, (canon_eq_iff_jeqv v w hwa.1 (wfF_lookup b m w hwb hb)).mpr h1⟩
      · simp only [hmk, if_false] at hm
        exact (pointwise_iff_canonMatch tl b hnd.2 hwa.2 hwb).mp h2 m u hm
    · intro hall
      refine ⟨?_, (pointwise_iff_canonMatch tl b hnd.2 hwa.2 hwb).mpr ?_⟩
      · obtain ⟨w, hb, hcw⟩ := hall k v (by simp [JFields.lookup])
        rw [hb]
        exact (canon_eq_iff_jeqv v w hwa.1 (wfF_lookup b k w hwb hb)).mp hcw
      · intro m u hm
        have hmk : ¬ m = k := by
          intro hc
          subst hc
          rw [lookup_some_mem_keys tl m u hm] at hnd
          rcases hnd with ⟨h1, -⟩
          cases h1
        exact hall m u (by simp [JFields.lookup, hmk, hm])

end

theorem outputSpec_some (result : JFields) (fs : JFields)
    (h : (ParsePolicyDecision result).outputSpec = some fs) :
    result.lookup "output_spec" = some (.obj fs) := by
  have h2 : (match result.lookup "output_spec" with
      | some (.obj gs) => some gs
      | _ => none) = some fs := h
  cases hl : result.lookup "output_spec" with
  | none =>
    rw [hl] at h2
    exact Option.noConfusion h2
  | some v =>
    rw [hl] at h2
    cases v with
    | obj gs =>
      have h3 : some gs = some fs := h2
      injection h3 with h3
      rw [h3]
    | null => exact Option.noConfusion h2
    | bool b => exact Option.noConfusion h2
    | num n => exact Option.noConfusion h2
    | str s => exact Option.noConfusion h2
    | arr xs => exact Option.noConfusion h2

theorem evalLoop_wf (oracle : EvalOracle) (labels : List (String × String)) :
    ∀ (ps : List DbPolicy) (s t : EvalState), OracleWf oracle →
    (J.obj s.currentSpec).wfB = true →
    evalLoop oracle labels ps s = .ok t → (J.obj t.currentSpec).wfB = true
  | [], s, t, _, hwf, h => by
    simp only [evalLoop] at h
    cases h
    exact hwf
  | p :: rest, s, t, ho, hwf, h => by
    simp only [evalLoop] at h
    split at h
    · exact evalLoop_wf oracle labels rest s t ho hwf h
    · split at h
      · exact Except.noConfusion h
      · rename_i r heq
        split at h
        · exact evalLoop_wf oracle labels rest s t ho hwf h
        · split at h
          · exact Except.noConfusion h
          · split at h
            · rename_i outSpec hos
              split at h
              · exact Except.noConfusion h
              · rename_i hcv
                have hres := ho p.packageName (evalInput s) r heq
                have hwf2 : (J.obj outSpec).wfB = true := by
                  simp only [J.wfB, Bool.and_eq_true] at hres
                  exact wfF_lookup r.result "output_spec" (.obj outSpec) hres.2
                    (outputSpec_some r.result outSpec hos)
                exact evalLoop_wf oracle labels rest _ t ho hwf2 h
            · exact evalLoop_wf oracle labels rest _ t ho (by exact hwf) h

/-- Claim C5: whenever `EvaluateRequest` completes without error, the
response status is `APPROVED` exactly when the evaluated service-instance
document is canonically (order-independently) equal as JSON to the input
document, and `MODIFIED` otherwise.  The hypotheses say the input document
and every engine result are well-formed JSON objects (no duplicated keys at
any level), which holds of anything decoded from JSON text. -/
theorem evaluateRequest_status (oracle : EvalOracle) (db : List DbPolicy)
    (req : EvaluationRequest) (resp : EvaluationResponse)
    (ho : OracleWf oracle) (hwf : (J.obj req.serviceInstance).wfB = true)
    (h : evaluateRequest oracle db req = .ok resp) :
    (resp.status = .approved ↔
      J.jeqv (.obj resp.evaluatedServiceInstance) (.obj req.serviceInstance) = true) := by
  simp only [evaluateRequest] at h
  split at h
  · exact Except.noConfusion h
  · rename_i s hl
    have hwfs : (J.obj s.currentSpec).wfB = true :=
      evalLoop_wf oracle req.requestLabels _ _ s ho (by exact hwf) hl
    injection h with h
    subst h
    have hcanon := canon_eq_iff_jeqv (.obj s.currentSpec) (.obj req.serviceInstance) hwfs hwf
    show (if mapsEqual req.serviceInstance s.currentSpec then EvalStatus.approved
        else EvalStatus.modified) = EvalStatus.approved ↔
      J.jeqv (.obj s.currentSpec) (.obj req.serviceInstance) = true
    by_cases hb : mapsEqual req.serviceInstance s.currentSpec
    · rw [if_pos hb]
      have hb2 : J.beq (J.canon (J.obj req.serviceInstance))
          (J.canon (J.obj s.currentSpec)) = true := hb
      constructor
      · intro _
        exact hcanon.mp ((J.beq_iff_eq _ _).mp hb2).symm
      · intro _
        rfl
    · rw [if_neg hb]
      constructor
      · intro hc
        exact EvalStatus.noConfusion hc
      · intro hj
        have hb2 : J.beq (J.canon (J.obj req.serviceInstance))
            (J.canon (J.obj s.currentSpec)) = true :=
          (J.beq_iff_eq _ _).mpr (hcanon.mpr hj).symm
        exact absurd hb2 hb

/-- Witness for the C5 theorem at a concrete trivial evaluation. -/
theorem evaluateRequest_status_witness :
    (evaluateRequest (fun _ _ => Except.error ()) []
        { serviceInstance := .nil, requestLabels := [] } =
      .ok { evaluatedServiceInstance := .nil, selectedProvider := "", status := .approved }) ∧
    (({ evaluatedServiceInstance := .nil, selectedProvider := "",
        status := .approved } : EvaluationResponse).status = .approved ↔
      J.jeqv (.obj .nil) (.obj .nil) = true) :=
  ⟨rfl, evaluateRequest_status (fun _ _ => Except.error ()) []
    { serviceInstance := .nil, requestLabels := [] }
    { evaluatedServiceInstance := .nil, selectedProvider := "", status := .approved }
    (fun _ _ _ hx => Except.noConfusion hx) rfl rfl⟩

theorem beq_comm_gen {α : Type} [BEq α] [LawfulBEq α] (a b : α) : (a == b) = (b == a) := by
  cases hab : a == b with
  | true =>
    have h := eq_of_beq hab
    subst h
    simp
  | false =>
    cases hba : b == a with
    | false => rfl
    | true =>
      have h := eq_of_beq hba
      subst h
      simp at hab

theorem rowsConflict_symm (r s : DbPolicy) : rowsConflict r s = rowsConflict s r := by
  simp only [rowsConflict]
  rw [beq_comm_gen r.id s.id, beq_comm_gen r.displayName s.displayName,
    beq_comm_gen r.policyType s.policyType, beq_comm_gen r.priority s.priority]

theorem dbWf_pairs : ∀ (db : List DbPolicy), dbWfB db = true →
    ∀ r s, r ∈ db → s ∈ db → r.id ≠ s.id → rowsConflict r s = false
  | [], _, r, _, hr, _, _ => absurd hr (List.not_mem_nil r)
  | x :: rest, hwf, r, s, hr, hs, hne => by
    simp only [dbWfB, Bool.and_eq_true] at hwf
    obtain ⟨hall, hrest⟩ := hwf
    rw [List.all_eq_true] at hall
    cases hr with
    | head =>
      cases hs with
      | head => exact absurd rfl hne
      | tail _ hs2 =>
        have h := hall s hs2
        simp only [Bool.not_eq_true'] at h
        exact h
    | tail _ hr2 =>
      cases hs with
      | head =>
        have h := hall r hr2
        simp only [Bool.not_eq_true'] at h
        rw [rowsConflict_symm]
        exact h
      | tail _ hs2 => exact dbWf_pairs rest hrest r s hr2 hs2 hne

theorem updateConflict_of_wf (db : List DbPolicy) (old : DbPolicy) (now : Nat)
    (hwf : dbWfB db = true) (hmem : old ∈ db) :
    updateConflictB db { old with updateTime := now } = false := by
  simp only [updateConflictB]
  rw [List.any_eq_false]
  intro r hr
  intro hp
  simp only [Bool.and_eq_true] at hp
  obtain ⟨hid, hcomp⟩ := hp
  have hid2 : (r.id != old.id) = true := hid
  have hne : r.id ≠ old.id := by simpa [bne_iff_ne] using hid2
  have hconf := dbWf_pairs db hwf r old hr hmem hne
  simp only [rowsConflict] at hconf
  have hcomp2 : ((r.displayName == old.displayName && r.policyType == old.policyType) ||
      (r.priority == old.priority && r.policyType == old.policyType)) = true := hcomp
  simp only [Bool.or_eq_false_iff] at hconf
  obtain ⟨⟨-, hdn⟩, hpr⟩ := hconf
  rw [hdn, hpr] at hcomp2
  simp at hcomp2

theorem storeGet_ok_find (db : List DbPolicy) (id : String) (row : DbPolicy)
    (h : storeGet db id = .ok row) : db.find? (fun r => r.id == id) = some row := by
  unfold storeGet at h
  cases hf : db.find? (fun r => r.id == id) with
  | some r =>
    rw [hf] at h
    have h2 : Except.ok (ε := StoreError) r = Except.ok row := h
    injection h2 with h2
    rw [h2]
  | none =>
    rw [hf] at h
    exact Except.noConfusion h

theorem storeCreate_ok_inv (db : List DbPolicy) (p : DbPolicy) (now : Nat) (fault : Bool)
    (created : DbPolicy) (db2 : List DbPolicy)
    (h : storeCreate db p now fault = .ok (created, db2)) :
    created = { p with createTime := now, updateTime := now } ∧
    db2 = db ++ [created] ∧ insertConflictB db created = false := by
  simp only [storeCreate] at h
  split at h
  · exact Except.noConfusion h
  · split at h
    · exact Except.noConfusion h
    · rename_i hconf
      injection h with h
      injection h with h1 h2
      subst h1
      subst h2
      simp only [Bool.not_eq_true] at hconf
      exact ⟨rfl, rfl, hconf⟩

theorem storeGet_append (db : List DbPolicy) (row : DbPolicy)
    (h : insertConflictB db row = false) :
    storeGet (db ++ [row]) row.id = .ok row := by
  have hnone : db.find? (fun r => r.id == row.id) = none := by
    rw [List.find?_eq_none]
    intro r hr
    simp only [insertConflictB, List.any_eq_false] at h
    have h2 := h r hr
    intro hidq
    simp [hidq] at h2
  unfold storeGet
  rw [List.find?_append, hnone]
  simp [List.find?]

theorem lookupStr_setStr : ∀ (m : List (String × String)) (k v : String),
    lookupStr (setStr m k v) k = some v
  | [], k, v => by simp [setStr, lookupStr]
  | (k2, v2) :: rest, k, v => by
    simp only [setStr]
    by_cases hk : (k2 == k) = true
    · rw [if_pos hk]
      simp [lookupStr]
    · rw [if_neg hk]
      simp only [lookupStr]
      have hne : ¬ k = k2 := by
        intro hc
        subst hc
        simp at hk
      rw [if_neg hne]
      exact lookupStr_setStr rest k v

theorem find_map_replace : ∀ (db : List DbPolicy) (newRow : DbPolicy) (pid : String),
    (db.find? (fun r => r.id == pid)).isSome = true → (newRow.id == pid) = true →
    (db.map (fun r => if r.id == pid then newRow else r)).find? (fun r => r.id == pid) =
      some newRow
  | [], _, _, h, _ => by simp [List.find?] at h
  | r :: rest, newRow, pid, h, hid => by
    simp only [List.map]
    by_cases hr : (r.id == pid) = true
    · rw [if_pos hr]
      simp [List.find?_cons, hid]
    · rw [if_neg hr]
      rw [List.find?_cons]
      simp only [hr]
      rw [List.find?_cons] at h
      simp only [hr] at h
      exact find_map_replace rest newRow pid h hid

theorem storeUpdate_ok_inv (db : List DbPolicy) (p : DbPolicy) (now : Nat)
    (updated : DbPolicy) (db2 : List DbPolicy)
    (h : storeUpdate db p now = .ok (updated, db2)) :
    updated.packageName = p.packageName ∧ (updated.id == p.id) = true ∧
    storeGet db2 p.id = .ok updated := by
  simp only [storeUpdate] at h
  split at h
  · exact Except.noConfusion h
  · rename_i old hf
    split at h
    · exact Except.noConfusion h
    · injection h with h
      injection h with h1 h2
      subst h1
      subst h2
      have hpa := List.find?_some hf
      refine ⟨rfl, hpa, ?_⟩
      unfold storeGet
      rw [find_map_replace db { old with
        displayName := p.displayName, description := p.description,
        labelSelector := p.labelSelector, priority := p.priority,
        packageName := p.packageName, enabled := p.enabled, updateTime := now } p.id
        (by rw [hf]; rfl) hpa]

theorem storeUpdate_ok (db : List DbPolicy) (p : DbPolicy) (now : Nat) (old : DbPolicy)
    (hf : db.find? (fun r => r.id == p.id) = some old)
    (hc : updateConflictB db { old with
      displayName := p.displayName, description := p.description,
      labelSelector := p.labelSelector, priority := p.priority,
      packageName := p.packageName, enabled := p.enabled, updateTime := now } = false) :
    storeUpdate db p now = .ok ({ old with
      displayName := p.displayName, description := p.description,
      labelSelector := p.labelSelector, priority := p.priority,
      packageName := p.packageName, enabled := p.enabled, updateTime := now },
      db.map (fun r => if r.id == p.id then { old with
        displayName := p.displayName, description := p.description,
        labelSelector := p.labelSelector, priority := p.priority,
        packageName := p.packageName, enabled := p.enabled, updateTime := now } else r)) := by
  simp only [storeUpdate]
  rw [hf]
  simp [hc]

theorem emptyMerge_roundtrip (exDB : DbPolicy) (id : String) :
    APIToDBModel (mergePolicyOntoPolicy (some emptyApiPolicy) (DBToAPIModel exDB)) id =
      { exDB with id := id, packageName := "", createTime := 0, updateTime := 0 } := by
  cases exDB with
  | mk eid dn desc pt ls pr pkg en ct ut =>
    simp only [APIToDBModel, mergePolicyOntoPolicy, DBToAPIModel, emptyApiPolicy]
    by_cases hd : desc = ""
    · by_cases hl : ls.length > 0
      · simp [hd, hl]
      · have hls : ls = [] := by
          cases ls with
          | nil => rfl
          | cons a l => simp at hl
        simp [hd, hls]
    · by_cases hl : ls.length > 0
      · simp [hd, hl]
      · have hls : ls = [] := by
          cases ls with
          | nil => rfl
          | cons a l => simp at hl
        simp [hd, hls]

/-- Claim C3: on an existing policy (and a database respecting the unique
indexes), an Update whose patch body is empty (all fields absent) succeeds
and changes nothing but that row's `update_time`: the resulting state keeps
the engine and its log untouched, every other row identical, and the
updated row equal to the old one — `package_name` included — except for
`update_time`. -/
theorem updatePolicy_emptyPatch (beh : EngineBehavior) (st : SysState) (id : String)
    (now : Nat) (existingDB : DbPolicy)
    (hwf : dbWfB st.db = true)
    (hget : storeGet st.db id = .ok existingDB) :
    updatePolicy beh st id (some emptyApiPolicy) now =
      ({ st with db := st.db.map (fun r =>
          if r.id == id then { existingDB with updateTime := now } else r) },
        .ok (DBToAPIModel { existingDB with updateTime := now })) := by
  have hf := storeGet_ok_find st.db id existingDB hget
  have hmem : existingDB ∈ st.db := List.mem_of_find?_eq_some hf
  have hc := updateConflict_of_wf st.db existingDB now hwf hmem
  simp only [updatePolicy]
  split
  · rename_i e heq
    simp [validatePatchInput, emptyApiPolicy, validatePriority] at heq
  · split
    · rename_i e heq
      rw [hget] at heq
      exact Except.noConfusion heq
    · rename_i exDB heq
      rw [hget] at heq
      injection heq with heq
      subst heq
      split
      · rename_i e heq2
        simp [validatePatchImmutableFields, emptyApiPolicy, patchChanges] at heq2
      · split
        · split
          · rename_i serr heq4
            rw [emptyMerge_roundtrip existingDB id] at heq4
            have heq5 : storeUpdate st.db { existingDB with id := id, packageName := existingDB.packageName, createTime := 0, updateTime := 0 } now = .error serr := heq4
            rw [storeUpdate_ok st.db { existingDB with id := id, packageName := existingDB.packageName, createTime := 0, updateTime := 0 } now existingDB (by exact hf) (by exact hc)] at heq5
            exact Except.noConfusion heq5
          · rename_i updated db2 heq4
            rw [emptyMerge_roundtrip existingDB id] at heq4
            have heq5 : storeUpdate st.db { existingDB with id := id, packageName := existingDB.packageName, createTime := 0, updateTime := 0 } now = .ok (updated, db2) := heq4
            rw [storeUpdate_ok st.db { existingDB with id := id, packageName := existingDB.packageName, createTime := 0, updateTime := 0 } now existingDB (by exact hf) (by exact hc)] at heq5
            injection heq5 with heq5
            injection heq5 with h1 h2
            subst h1
            subst h2
            rfl
        · rename_i newRego heq3
          simp [emptyApiPolicy] at heq3

/-- Witness for the C3 theorem on the one-policy fixture state. -/
theorem updatePolicy_emptyPatch_witness :
    dbWfB stOne.db = true ∧ storeGet stOne.db "pol-a" = .ok fixRow1 ∧
    updatePolicy engOk stOne "pol-a" (some emptyApiPolicy) 7 =
      ({ stOne with db := stOne.db.map (fun r =>
          if r.id == "pol-a" then { fixRow1 with updateTime := 7 } else r) },
        .ok (DBToAPIModel { fixRow1 with updateTime := 7 })) :=
  ⟨rfl, rfl, updatePolicy_emptyPatch engOk stOne "pol-a" 7 fixRow1 rfl rfl⟩

theorem storeDelete_append (db : List DbPolicy) (row : DbPolicy)
    (h : insertConflictB db row = false) :
    storeDelete (db ++ [row]) row.id = .ok db := by
  have hall : ∀ r ∈ db, (r.id == row.id) = false := by
    intro r hr
    simp only [insertConflictB, List.any_eq_false] at h
    have h2 := h r hr
    cases hq : r.id == row.id
    · rfl
    · simp [hq] at h2
  have hany : (db ++ [row]).any (fun r => r.id == row.id) = true := by
    simp [List.any_append]
  unfold storeDelete
  rw [if_pos hany, List.filter_append]
  have h1 : db.filter (fun r => r.id != row.id) = db := by
    rw [List.filter_eq_self]
    intro r hr
    have hq := hall r hr
    simp [bne, hq]
  have h2 : [row].filter (fun r => r.id != row.id) = [] := by
    simp [List.filter, bne]
  rw [h1, h2, List.append_nil]

theorem createPolicy_run_dberr (beh : EngineBehavior) (st : SysState) (policy : ApiPolicy)
    (clientID : Option String) (genId : String) (now : Nat) (fault : Bool)
    (pid pkg : String) (serr : StoreError)
    (hval : validatePostInput policy = none)
    (hid : getPolicyID clientID genId = .ok pid)
    (hpkg : ExtractPackageName (policy.regoCode.getD "") = .ok pkg)
    (hserr : storeCreate st.db { APIToDBModel policy pid with packageName := pkg } now fault =
      .error serr) :
    createPolicy beh st policy clientID genId now fault =
      (st, .error (processPolicyStoreError serr
        { APIToDBModel policy pid with packageName := pkg } "create")) := by
  simp only [createPolicy]
  split
  · rename_i e heq
    rw [hval] at heq
    exact Option.noConfusion heq
  · split
    · rename_i e heq
      rw [hid] at heq
      exact Except.noConfusion heq
    · rename_i pid2 heq
      rw [hid] at heq
      injection heq with heq
      subst heq
      split
      · rename_i a heq
        rw [hpkg] at heq
        exact Except.noConfusion heq
      · rename_i pkg2 heq
        rw [hpkg] at heq
        injection heq with heq
        subst heq
        split
        · rename_i serr2 heq
          have heq2 : storeCreate st.db { APIToDBModel policy pid with packageName := pkg } now fault = .error serr2 := heq
          rw [hserr] at heq2
          injection heq2 with heq2
          subst heq2
          rfl
        · rename_i created db2 heq
          have heq2 : storeCreate st.db { APIToDBModel policy pid with packageName := pkg } now fault = .ok (created, db2) := heq
          rw [hserr] at heq2
          exact Except.noConfusion heq2

theorem createPolicy_run_ok (beh : EngineBehavior) (st : SysState) (policy : ApiPolicy)
    (clientID : Option String) (genId : String) (now : Nat) (fault : Bool)
    (pid pkg : String) (created : DbPolicy) (db2 : List DbPolicy)
    (hval : validatePostInput policy = none)
    (hid : getPolicyID clientID genId = .ok pid)
    (hpkg : ExtractPackageName (policy.regoCode.getD "") = .ok pkg)
    (hok : storeCreate st.db { APIToDBModel policy pid with packageName := pkg } now fault =
      .ok (created, db2)) :
    createPolicy beh st policy clientID genId now fault =
      (match engineStorePolicy beh { st with db := db2 } pid (policy.regoCode.getD "") with
       | (st2, some e) =>
         ({ st2 with db :=
             match storeDelete st2.db pid with
             | .ok db3 => db3
             | .error _ => st2.db },
           .error (handleOPAError e "create"))
       | (st2, none) => (st2, .ok (DBToAPIModel created))) := by
  simp only [createPolicy]
  split
  · rename_i e heq
    rw [hval] at heq
    exact Option.noConfusion heq
  · split
    · rename_i e heq
      rw [hid] at heq
      exact Except.noConfusion heq
    · rename_i pid2 heq
      rw [hid] at heq
      injection heq with heq
      subst heq
      split
      · rename_i a heq
        rw [hpkg] at heq
        exact Except.noConfusion heq
      · rename_i pkg2 heq
        rw [hpkg] at heq
        injection heq with heq
        subst heq
        split
        · rename_i serr2 heq
          have heq2 : storeCreate st.db { APIToDBModel policy pid with packageName := pkg } now fault = .error serr2 := heq
          rw [hok] at heq2
          exact Except.noConfusion heq2
        · rename_i created2 db2p heq
          have heq2 : storeCreate st.db { APIToDBModel policy pid with packageName := pkg } now fault = .ok (created2, db2p) := heq
          rw [hok] at heq2
          injection heq2 with heq2
          injection heq2 with h1 h2
          subst h1
          subst h2
          rfl

/-- Claim C1, corrected: under the validated inputs of a Create call, the
database insert happens before any engine call — a uniqueness conflict or
internal DB error returns the store error mapped through
`processPolicyStoreError` with the whole state (database, engine map,
engine log) untouched, so no engine store or delete is ever issued and a
previously stored source survives; only after a successful insert is the
Rego source stored in the engine under the id, appending the row with
`package_name` equal to the extracted package; when the engine then
refuses the source (invalid Rego as `InvalidArgument`, engine unreachable
as `Internal`), the inserted row is removed best-effort and the engine
map keeps its old content. -/
theorem createPolicy_protocol (beh : EngineBehavior) (st : SysState) (policy : ApiPolicy)
    (clientID : Option String) (genId : String) (now : Nat) (fault : Bool)
    (pid pkg : String)
    (hval : validatePostInput policy = none)
    (hid : getPolicyID clientID genId = .ok pid)
    (hpkg : ExtractPackageName (policy.regoCode.getD "") = .ok pkg) :
    (∀ serr, storeCreate st.db { APIToDBModel policy pid with packageName := pkg } now fault =
        .error serr →
      createPolicy beh st policy clientID genId now fault =
        (st, .error (processPolicyStoreError serr
          { APIToDBModel policy pid with packageName := pkg } "create"))) ∧
    (∀ created db2, beh.storeErr pid (policy.regoCode.getD "") = none →
      storeCreate st.db { APIToDBModel policy pid with packageName := pkg } now fault =
        .ok (created, db2) →
      createPolicy beh st policy clientID genId now fault =
        ({ st with db := db2, engine := setStr st.engine pid (policy.regoCode.getD ""), engineLog := st.engineLog ++ [.storeOp pid (policy.regoCode.getD "")] },
          .ok (DBToAPIModel created)) ∧
      created.packageName = pkg ∧ db2 = st.db ++ [created]) ∧
    (∀ created db2 e, beh.storeErr pid (policy.regoCode.getD "") = some e →
      storeCreate st.db { APIToDBModel policy pid with packageName := pkg } now fault =
        .ok (created, db2) →
      (createPolicy beh st policy clientID genId now fault).2 =
        .error (handleOPAError e "create") ∧
      (createPolicy beh st policy clientID genId now fault).1.db = st.db ∧
      (createPolicy beh st policy clientID genId now fault).1.engine = st.engine ∧
      (createPolicy beh st policy clientID genId now fault).1.engineLog =
        st.engineLog ++ [.storeOp pid (policy.regoCode.getD "")] ∧
      (handleOPAError OpaErr.invalidRego "create").type = ErrorType.invalidArgument ∧
      (handleOPAError OpaErr.unavailable "create").type = ErrorType.internal) := by
  refine ⟨?_, ?_, ?_⟩
  · intro serr hserr
    exact createPolicy_run_dberr beh st policy clientID genId now fault pid pkg serr
      hval hid hpkg hserr
  · intro created db2 hnone hok
    obtain ⟨c1, c2, c3⟩ := storeCreate_ok_inv st.db _ now fault created db2 hok
    refine ⟨?_, (congrArg DbPolicy.packageName c1).trans rfl, c2⟩
    rw [createPolicy_run_ok beh st policy clientID genId now fault pid pkg created db2
      hval hid hpkg hok]
    rw [show engineStorePolicy beh { st with db := db2 } pid (policy.regoCode.getD "") = ({ st with db := db2, engine := setStr st.engine pid (policy.regoCode.getD ""), engineLog := st.engineLog ++ [.storeOp pid (policy.regoCode.getD "")] }, none) from by simp [engineStorePolicy, hnone]]
  · intro created db2 e hse hok
    obtain ⟨c1, c2, c3⟩ := storeCreate_ok_inv st.db _ now fault created db2 hok
    have hrun := createPolicy_run_ok beh st policy clientID genId now fault pid pkg created db2
      hval hid hpkg hok
    rw [show engineStorePolicy beh { st with db := db2 } pid (policy.regoCode.getD "") = ({ st with db := db2, engineLog := st.engineLog ++ [.storeOp pid (policy.regoCode.getD "")] }, some e) from by simp [engineStorePolicy, hse]] at hrun
    have hrun2 : createPolicy beh st policy clientID genId now fault = ({ st with db := match storeDelete db2 pid with | .ok db3 => db3 | .error _ => db2, engineLog := st.engineLog ++ [.storeOp pid (policy.regoCode.getD "")] }, .error (handleOPAError e "create")) := hrun
    rw [hrun2]
    have hid9 : created.id = pid := (congrArg DbPolicy.id c1).trans rfl
    have hdel : (match storeDelete db2 pid with | .ok db3 => db3 | .error _ => db2) = st.db := by
      subst c2
      rw [← hid9, storeDelete_append st.db created c3]
    exact ⟨rfl, hdel, rfl, rfl, rfl, rfl⟩

/-- Witness for the C1 theorem: a duplicate-id create on the one-policy
fixture state fails at the database and leaves the state untouched. -/
theorem createPolicy_protocol_witness :
    storeCreate stOne.db { APIToDBModel fixApi "pol-a" with packageName := "policies.newp" } 5 false = .error .policyIDTaken ∧
    createPolicy engOk stOne fixApi (some "pol-a") "gen" 5 false =
      (stOne, .error (processPolicyStoreError .policyIDTaken { APIToDBModel fixApi "pol-a" with packageName := "policies.newp" } "create")) :=
  ⟨rfl, (createPolicy_protocol engOk stOne fixApi (some "pol-a") "gen" 5 false
    "pol-a" "policies.newp" rfl rfl rfl).1 .policyIDTaken rfl⟩

/-- Counterexample to claim C1 as stated: on a duplicate-id create over
the one-policy fixture, the modelled service (operation order fixed by
the in-src service tests) leaves the engine map and the engine call log
untouched, preserving the original source, while the engine-first
protocol the claim asserts would have issued a store and a best-effort
delete, losing the original source. -/
theorem createPolicy_claim_counterexample :
    lookupStr (createPolicy engOk stOne fixApi (some "pol-a") "gen" 5 false).1.engine
      "pol-a" = some "package policies.a" ∧
    (createPolicy engOk stOne fixApi (some "pol-a") "gen" 5 false).1.engineLog = [] ∧
    (createPolicy engOk stOne fixApi (some "pol-a") "gen" 5 false).2 =
      .error (NewPolicyAlreadyExistsError "pol-a") ∧
    lookupStr (claimC1Create engOk stOne fixApi (some "pol-a") "gen" 5 false).1.engine
      "pol-a" = none ∧
    (claimC1Create engOk stOne fixApi (some "pol-a") "gen" 5 false).1.engineLog =
      [.storeOp "pol-a" (fixApi.regoCode.getD ""), .deleteOp "pol-a"] :=
  ⟨rfl, rfl, rfl, rfl, rfl⟩

/-- Claim C2: after every successful Create, and after every successful
Update whose patch carries `rego_code`, the `package_name` stored in the
database row equals the result of the package extractor applied to the
Rego source the engine then holds under the policy id. -/
theorem packageName_extract_invariant (beh : EngineBehavior) (st : SysState) :
    (∀ policy clientID genId now fault st2 api,
      createPolicy beh st policy clientID genId now fault = (st2, .ok api) →
      ∃ pid rego row, api.id = some pid ∧
        lookupStr st2.engine pid = some rego ∧
        storeGet st2.db pid = .ok row ∧
        ExtractPackageName rego = .ok row.packageName) ∧
    (∀ id patch newRego now st2 api,
      patch.regoCode = some newRego →
      updatePolicy beh st id (some patch) now = (st2, .ok api) →
      ∃ row, storeGet st2.db id = .ok row ∧
        lookupStr st2.engine id = some newRego ∧
        ExtractPackageName newRego = .ok row.packageName) := by
  constructor
  · intro policy clientID genId now fault st2 api h
    simp only [createPolicy] at h
    split at h
    · injection h with h1 h2
      exact Except.noConfusion h2
    · split at h
      · injection h with h1 h2
        exact Except.noConfusion h2
      · rename_i pid heqID
        split at h
        · injection h with h1 h2
          exact Except.noConfusion h2
        · rename_i pkg heqPkg
          split at h
          · injection h with h1 h2
            exact Except.noConfusion h2
          · rename_i created db2 heqStore
            split at h
            · injection h with h1 h2
              exact Except.noConfusion h2
            · rename_i st2e heqEng
              injection h with h1 h2
              injection h2 with h2
              subst h1
              subst h2
              simp only [engineStorePolicy] at heqEng
              split at heqEng
              · injection heqEng with g1 g2
                exact Option.noConfusion g2
              · rename_i hse
                injection heqEng with g1 g2
                subst g1
                obtain ⟨c1, c2, c3⟩ := storeCreate_ok_inv _ _ now fault created db2 heqStore
                subst c2
                refine ⟨pid, policy.regoCode.getD "", created, ?_, ?_, ?_, ?_⟩
                · exact (congrArg (fun r => (DBToAPIModel r).id) c1).trans rfl
                · exact lookupStr_setStr st.engine pid (policy.regoCode.getD "")
                · have hid9 : created.id = pid := (congrArg DbPolicy.id c1).trans rfl
                  rw [← hid9]
                  exact storeGet_append _ _ c3
                · have hpk9 : created.packageName = pkg :=
                    (congrArg DbPolicy.packageName c1).trans rfl
                  rw [hpk9]
                  exact heqPkg
  · intro id patch newRego now st2 api hpr h
    simp only [updatePolicy] at h
    split at h
    · injection h with h1 h2
      exact Except.noConfusion h2
    · split at h
      · injection h with h1 h2
        exact Except.noConfusion h2
      · rename_i exDB heqGet
        split at h
        · injection h with h1 h2
          exact Except.noConfusion h2
        · split at h
          · rename_i heqB
            rw [show ((some patch).bind fun p => p.regoCode) = some newRego from by simp [hpr]] at heqB
            exact Option.noConfusion heqB
          · rename_i newRego2 heqB
            rw [show ((some patch).bind fun p => p.regoCode) = some newRego from by simp [hpr]] at heqB
            injection heqB with heqB
            subst heqB
            split at h
            · injection h with h1 h2
              exact Except.noConfusion h2
            · rename_i newPkg heqPkg
              split at h
              · injection h with h1 h2
                exact Except.noConfusion h2
              · rename_i st2g oldRego heqGetE
                split at h
                · injection h with h1 h2
                  exact Except.noConfusion h2
                · rename_i st3 heqStoreE
                  split at h
                  · injection h with h1 h2
                    exact Except.noConfusion h2
                  · rename_i updated db2 heqUp
                    injection h with h1 h2
                    injection h2 with h2
                    subst h1
                    subst h2
                    simp only [engineStorePolicy] at heqStoreE
                    split at heqStoreE
                    · injection heqStoreE with g1 g2
                      exact Option.noConfusion g2
                    · rename_i hse
                      injection heqStoreE with g1 g2
                      subst g1
                      obtain ⟨u1, u2, u3⟩ := storeUpdate_ok_inv _ _ now updated db2 heqUp
                      refine ⟨updated, ?_, ?_, ?_⟩
                      · exact u3
                      · exact lookupStr_setStr _ id newRego
                      · have hup : updated.packageName = newPkg := u1
                        rw [hup]
                        exact heqPkg

/-- Witness for the C2 theorem: the create branch on the empty fixture
state. -/
theorem packageName_extract_invariant_witness :
    ∃ pid rego row,
      (DBToAPIModel { { APIToDBModel fixApi "pol-new" with packageName := "policies.newp" } with createTime := 5, updateTime := 5 }).id = some pid ∧
      lookupStr (setStr stEmpty.engine "pol-new" (fixApi.regoCode.getD "")) pid = some rego ∧
      storeGet (stEmpty.db ++ [{ { APIToDBModel fixApi "pol-new" with packageName := "policies.newp" } with createTime := 5, updateTime := 5 }]) pid = .ok row ∧
      ExtractPackageName rego = .ok row.packageName :=
  (packageName_extract_invariant engOk stEmpty).1 fixApi (some "pol-new") "gen" 5 false
    _ _ rfl
